import Mathlib

/-!
Verification development for the table-extraction and JSON re-injection
pipeline of the screen-reader-HTML-support repository
(`.github/scripts/generate_lookup_copy.py`, with
`.github/scripts/update_lookup.py` as a near-duplicate variant).

Strings are modelled as `List Char` (`Str`).  Python `re` patterns in the
source are fixed literal patterns; each is embedded as a dedicated scanning
function with the same leftmost / greedy / lazy semantics, documented at its
definition.  The HTML tokenizer of the Python standard library is external
to the repository; the parser subclass `TableGrabber` is embedded as a fold
over the tokenizer's event stream (start tag / end tag / data / entity
reference / character reference events), which is exactly the interface the
source code implements.
-/

set_option maxRecDepth 16384

namespace SRHS

abbrev Str := List Char

/-- The double-quote character. -/
def dqCh : Char := Char.ofNat 34

/-- The single-quote character. -/
def sqCh : Char := Char.ofNat 39

/-- The greater-than character, closing an HTML tag. -/
def gtCh : Char := Char.ofNat 62

/-- ASCII lowercasing of one character, modelling `str.lower` / `re.IGNORECASE`
on the ASCII range handled by the pipeline. -/
def lowCh (c : Char) : Char :=
  if 65 ≤ c.toNat ∧ c.toNat ≤ 90 then Char.ofNat (c.toNat + 32) else c

/-- `s.lower()` on a string. -/
def lowerStr (s : Str) : Str := s.map lowCh

/-- Python `\s` / `str.strip` whitespace on the ASCII range: space, tab,
newline, carriage return, vertical tab, form feed. -/
def isWS (c : Char) : Bool :=
  c = ' ' ∨ c = '\t' ∨ c = '\n' ∨ c = '\r' ∨ c.toNat = 11 ∨ c.toNat = 12

theorem length_dropWhile_le' (p : Char → Bool) (l : Str) :
    (l.dropWhile p).length ≤ l.length := by
  induction l with
  | nil => simp [List.dropWhile]
  | cons c rest ih =>
    by_cases h : p c
    · simpa [List.dropWhile, h] using Nat.le_succ_of_le ih
    · simp [List.dropWhile, h]

/-- Fuel-bounded worker for `collapseWS` (each step consumes at least one
character, so `length + 1` fuel always suffices). -/
def collapseWSF : Nat → Str → Str
  | 0, _ => []
  | _ + 1, [] => []
  | fuel + 1, c :: rest =>
    if isWS c then ' ' :: collapseWSF fuel (rest.dropWhile (fun d => isWS d))
    else c :: collapseWSF fuel rest

/-- `re.sub(r"\s+", " ", s)`: every maximal whitespace run becomes one space. -/
def collapseWS (s : Str) : Str := collapseWSF (s.length + 1) s

/-- `s.strip()`. -/
def stripWS (s : Str) : Str :=
  ((s.dropWhile (fun c => isWS c)).reverse.dropWhile (fun c => isWS c)).reverse

/-- Case-insensitive literal matcher: if `s` starts with `lit` up to ASCII
case, return the consumed original characters and the remainder. -/
def stripLitCI : Str → Str → Option (Str × Str)
  | [], s => some ([], s)
  | _ :: _, [] => none
  | c :: cs, x :: xs =>
    if lowCh x = lowCh c then
      (stripLitCI cs xs).map (fun pr => (x :: pr.1, pr.2))
    else none

/-- Case-sensitive literal matcher (same shape as `stripLitCI`). -/
def stripLitE : Str → Str → Option Str
  | [], s => some s
  | _ :: _, [] => none
  | c :: cs, x :: xs => if x = c then stripLitE cs xs else none

/-- Does `pat` occur (case-insensitively) as a contiguous substring of `s`? -/
def hasSubstrCI (pat : Str) : Str → Bool
  | [] => (stripLitCI pat []).isSome
  | s@(_ :: rest) => (stripLitCI pat s).isSome || hasSubstrCI pat rest

/-- First occurrence of character `c`: `some (before, after)` with
`s = before ++ c :: after` and `c ∉ before`. -/
def splitAtChar (c : Char) : Str → Option (Str × Str)
  | [] => none
  | x :: rest =>
    if x = c then some ([], rest)
    else (splitAtChar c rest).map (fun pr => (x :: pr.1, pr.2))

/-- First case-insensitive occurrence of `lit`: `some (before, at_)` where
`s = before ++ at_` and `at_` starts with `lit`. -/
def findLitCI (lit : Str) : Str → Option (Str × Str)
  | [] => none
  | s@(c :: rest) =>
    if (stripLitCI lit s).isSome then some ([], s)
    else (findLitCI lit rest).map (fun pr => (c :: pr.1, pr.2))

/-- Split off the maximal whitespace suffix: `s = core ++ wsTail`. -/
def splitWSsuffix (s : Str) : Str × Str :=
  let n := (s.reverse.takeWhile (fun c => isWS c)).length
  (s.take (s.length - n), s.drop (s.length - n))

/-- Decimal rendering of a natural number, as used by Python f-strings. -/
def natStr (n : Nat) : Str := (Nat.repr n).data

/-!  Data model: one table cell as captured by `TableGrabber`
(the Python tuple `(text, html, links)`), links as `{"href", "text"}` dicts. -/

/-- One extracted hyperlink: the Python dict `{"href": ..., "text": ...}`
(insertion order href, then text). -/
structure Link where
  href : Str
  text : Str
deriving DecidableEq, Repr

/-- One table cell: the Python tuple `(text, html, links)`. -/
structure CellT where
  text : Str
  html : Str
  links : List Link
deriving DecidableEq, Repr

/-!  Header normalization and selection
(`normalize_headers`, `choose_header` in generate_lookup_copy.py). -/

/-- `normalize_headers` body for one header: collapse whitespace, strip, and
rewrite `aural ui` (the source also tests the literal `"Aural UI"`, which is
subsumed) to `AURAL UI`. -/
def normHeader (h : Str) : Str :=
  let hh := stripWS (collapseWS h)
  if lowerStr hh = "aural ui".data ∨ hh = "Aural UI".data then "AURAL UI".data
  else hh

/-- `normalize_headers`: the loop over the row's header strings. -/
def normalize_headers (hs : List Str) : List Str := hs.map normHeader

/-- `rows_to_text` inside `choose_header`: keep each cell's text component. -/
def rows_to_text (rows : List (List CellT)) : List (List Str) :=
  rows.map (fun row => row.map (fun cell => cell.text))

/-- `any(h.lower() == "element" for h in norm)`. -/
def rowHasExactElement (norm : List Str) : Bool :=
  norm.any (fun h => lowerStr h = "element".data)

/-- `any("element" in h.lower() for h in norm)`. -/
def rowHasSubstrElement (norm : List Str) : Bool :=
  norm.any (fun h => hasSubstrCI "element".data (lowerStr h))

/-- One of the `for row in ...: if any(...): return norm` loops of
`choose_header`, exact-match version. -/
def findExactRow : List (List Str) → Option (List Str)
  | [] => none
  | row :: rs =>
    let norm := normalize_headers row
    if rowHasExactElement norm then some norm else findExactRow rs

/-- The substring-fallback loop of `choose_header`. -/
def findSubstrRow : List (List Str) → Option (List Str)
  | [] => none
  | row :: rs =>
    let norm := normalize_headers row
    if rowHasSubstrElement norm then some norm else findSubstrRow rs

/-- `choose_header(thead_rows, header_candidates)`: three-tier selection,
returning `[]` when nothing qualifies (the caller then fails the run). -/
def choose_header (thead_rows header_candidates : List (List CellT)) :
    List Str :=
  match findExactRow (rows_to_text thead_rows) with
  | some n => n
  | none =>
    match findExactRow (rows_to_text header_candidates) with
    | some n => n
    | none =>
      match
        findSubstrRow (rows_to_text thead_rows ++
          rows_to_text header_candidates) with
      | some n => n
      | none => []

/-- Header normalization as the specification words it: collapse internal
whitespace, trim, rewrite an `aural ui` of any case to `AURAL UI`.  Used only
to compare against the source's `normHeader`. -/
def normHeaderSpec (h : Str) : Str :=
  let hh := stripWS (collapseWS h)
  if lowerStr hh = "aural ui".data then "AURAL UI".data else hh

/-- Header resolution as the specification words it: first matching row of
tier 1 (thead rows, exact case-insensitive `Element`), else tier 2 (other
header candidates, same test), else tier 3 (all rows of both accumulators,
first row with a name containing `element` as a case-insensitive substring),
else failure (`none`).  Used only to compare against `choose_header`. -/
def chooseHeaderSpec (thead_rows header_candidates : List (List CellT)) :
    Option (List Str) :=
  let tn := (rows_to_text thead_rows).map (fun r => r.map normHeaderSpec)
  let cn := (rows_to_text header_candidates).map (fun r => r.map normHeaderSpec)
  match tn.find? rowHasExactElement with
  | some n => some n
  | none =>
    match cn.find? rowHasExactElement with
    | some n => some n
    | none => (tn ++ cn).find? rowHasSubstrElement

/-!  Row projection (`convert`, lines 258-283): insertion-ordered dicts with
Python assignment semantics, and the record built per data row. -/

/-- Python dict assignment `d[k] = v`: update in place keeping the key's
original position, else append. -/
def dictSet (k : Str) (v : α) : List (Str × α) → List (Str × α)
  | [] => [(k, v)]
  | (k', v') :: rest =>
    if k' = k then (k', v) :: rest else (k', v') :: dictSet k v rest

/-- Python `d.get(k)` / `k in d`. -/
def dictGet? (k : Str) : List (Str × α) → Option α
  | [] => none
  | (k', v') :: rest => if k' = k then some v' else dictGet? k rest

/-- One output record: the row dict `obj` plus the `_html` and `_links`
side-channel dicts (empty map = key absent).  Faithful to the source
provided no header is literally named `_html` or `_links` (the reserved
side-channel keys). -/
structure RecordT where
  fields : List (Str × Str)
  htmlMap : List (Str × Str)
  linksMap : List (Str × List Link)
deriving DecidableEq, Repr

/-- The empty record accumulator. -/
def emptyRecord : RecordT := ⟨[], [], []⟩

/-- One step of the `for i, h in enumerate(headers)` loop. -/
def projectStep (r : RecordT) (hc : Str × CellT) : RecordT :=
  { fields := dictSet hc.1 hc.2.text r.fields
    htmlMap :=
      if stripWS hc.2.html ≠ [] then dictSet hc.1 hc.2.html r.htmlMap
      else r.htmlMap
    linksMap :=
      if hc.2.links ≠ [] then dictSet hc.1 hc.2.links r.linksMap
      else r.linksMap }

/-- The per-row body of `convert`: align the row to the header length
(truncate, then zero-pad with empty cells) and build the record. -/
def projectRow (headers : List Str) (row : List CellT) : RecordT :=
  let cells := row.take headers.length ++
    List.replicate (headers.length - row.length) ⟨[], [], []⟩
  (headers.zip cells).foldl projectStep emptyRecord

/-- The key column name. -/
def elementKey : Str := "Element".data

/-- The row loop of `convert`: project each data row, skipping rows whose
`Element` value is absent or blank (`if not obj.get("Element", "").strip()`). -/
def projectRows (headers : List Str) (rows : List (List CellT)) :
    List RecordT :=
  rows.filterMap (fun row =>
    let r := projectRow headers row
    if stripWS ((dictGet? elementKey r.fields).getD []) = [] then none
    else some r)

/-!  Sections, bundles, and the bundle validator
(`convert`'s result shape and `validate_for_lookup`). -/

/-- One section of the bundle, with the field insertion order of `convert`'s
result dict: screen_reader, caption, date, caption_links, rows. -/
structure SectionT where
  screen_reader : Str
  caption : Str
  date : Str
  caption_links : List Str
  rows : List RecordT
deriving DecidableEq, Repr

/-- The assembled bundle: one section per input document, input order. -/
abbrev Bundle := List SectionT

/-- `"Element" not in r or not r["Element"].strip()` for one record. -/
def recMissingElement (r : RecordT) : Bool :=
  match dictGet? elementKey r.fields with
  | none => true
  | some v => stripWS v = []

/-- Count of records in a section missing a non-blank `Element`. -/
def missCount (sec : SectionT) : Nat :=
  (sec.rows.filter recMissingElement).length

/-- The problem string for a section with no rows. -/
def noRowsMsg (sec : SectionT) : Str :=
  sec.screen_reader ++ ": no rows parsed.".data

/-- The problem string for a section with records missing `Element`. -/
def missMsg (sec : SectionT) : Str :=
  sec.screen_reader ++ ": ".data ++ natStr (missCount sec) ++
    " row(s) missing non-empty ".data ++ [sqCh] ++ "Element".data ++ [sqCh] ++
    ".".data

/-- The problems one section contributes in `validate_for_lookup`
(`continue` after the no-rows problem skips the miss check). -/
def sectionProblems (sec : SectionT) : List Str :=
  if sec.rows = [] then [noRowsMsg sec]
  else if 0 < missCount sec then [missMsg sec] else []

/-- `validate_for_lookup`'s aggregated problem list over all sections. -/
def validationProblems (data : Bundle) : List Str :=
  (data.map sectionProblems).flatten

/-- The success line `validate_for_lookup` prints when there are no problems. -/
def okMsg (data : Bundle) : Str :=
  "Validation OK: ".data ++ natStr data.length ++
    " sections, all rows have ".data ++ [sqCh] ++ "Element".data ++ [sqCh] ++
    ".".data

/-- The fatal message of `validate_for_lookup`. -/
def valFailMsg : Str := "Validation failed for lookup JSON.".data

/-!  Compact JSON serialization:
`json.dumps(data, ensure_ascii=False, separators=(",", ":"))`. -/

/-- Four lowercase hex digits, as in `json`'s `\u%04x` escapes. -/
def hex4 (n : Nat) : Str :=
  let dig := fun (m : Nat) =>
    if m < 10 then Char.ofNat (48 + m) else Char.ofNat (87 + m)
  [dig (n / 4096 % 16), dig (n / 256 % 16), dig (n / 16 % 16), dig (n % 16)]

/-- `json`'s escaping of one character with `ensure_ascii=False`: only the
quote, the backslash, and control characters below 0x20 are escaped. -/
def escChar (c : Char) : Str :=
  if c = dqCh then ['\\', dqCh]
  else if c = '\\' then ['\\', '\\']
  else if c.toNat < 32 then
    if c.toNat = 8 then ['\\', 'b']
    else if c.toNat = 9 then ['\\', 't']
    else if c.toNat = 10 then ['\\', 'n']
    else if c.toNat = 12 then ['\\', 'f']
    else if c.toNat = 13 then ['\\', 'r']
    else '\\' :: 'u' :: hex4 c.toNat
  else [c]

/-- A JSON string literal. -/
def encStr (s : Str) : Str := dqCh :: (s.map escChar).flatten ++ [dqCh]

/-- The left and right curly brace characters. -/
def lbCh : Char := Char.ofNat 123

/-- The right curly brace character. -/
def rbCh : Char := Char.ofNat 125

/-- A compact JSON object from already-encoded `key:value` members. -/
def encObj (members : List Str) : Str :=
  lbCh :: (List.intercalate ",".data members) ++ [rbCh]

/-- A compact JSON array from already-encoded elements. -/
def encArr (elems : List Str) : Str :=
  '[' :: (List.intercalate ",".data elems) ++ [']']

/-- One `key:value` member. -/
def encMember (k : Str) (v : Str) : Str := encStr k ++ ":".data ++ v

/-- One link dict `{"href": ..., "text": ...}`. -/
def encLink (l : Link) : Str :=
  encObj [encMember "href".data (encStr l.href),
          encMember "text".data (encStr l.text)]

/-- One record: the row dict in insertion order (headers first, then the
optional `_html` and `_links` side channels). -/
def encRecord (r : RecordT) : Str :=
  encObj ((r.fields.map (fun kv => encMember kv.1 (encStr kv.2))) ++
    (if r.htmlMap = [] then []
     else [encMember "_html".data
       (encObj (r.htmlMap.map (fun kv => encMember kv.1 (encStr kv.2))))]) ++
    (if r.linksMap = [] then []
     else [encMember "_links".data
       (encObj (r.linksMap.map
         (fun kv => encMember kv.1 (encArr (kv.2.map encLink)))))]))

/-- One section object, keys in `convert`'s insertion order. -/
def encSection (sec : SectionT) : Str :=
  encObj [encMember "screen_reader".data (encStr sec.screen_reader),
          encMember "caption".data (encStr sec.caption),
          encMember "date".data (encStr sec.date),
          encMember "caption_links".data
            (encArr (sec.caption_links.map encStr)),
          encMember "rows".data (encArr (sec.rows.map encRecord))]

/-- `json.dumps(data, ensure_ascii=False, separators=(",", ":"))`. -/
def serializeBundle (data : Bundle) : Str :=
  encArr (data.map encSection)

/-- `payload.replace("</", "<\\/")`: left-to-right, non-overlapping. -/
def escapeLtSlash : Str → Str
  | [] => []
  | '<' :: '/' :: rest => '<' :: '\\' :: '/' :: escapeLtSlash rest
  | c :: rest => c :: escapeLtSlash rest

/-!  Replacement-template processing.

`inject_json` performs `rx.sub(rf"\1{payload}\3", template_html)`.  Python's
`re.sub` parses a *string* replacement as a template: `\1`..`\99` are group
references, `\a \b \f \n \r \t \v \\` become the corresponding control
characters, `\0` starts an octal escape, a backslash before another ASCII
letter is an error, and a backslash before a non-letter is kept literally.
The payload is interpolated into that template, so its own backslashes are
processed by these rules.  This is embedded below (named-group syntax
`\g<...>` is modelled as an error; a `json.dumps` payload never contains
`\g`). -/

/-- One parsed template item: literal text or a group reference. -/
inductive TItem where
  | lit (s : Str)
  | ref (n : Nat)
deriving DecidableEq, Repr

/-- Octal digit test. -/
def isOct (c : Char) : Bool := 48 ≤ c.toNat ∧ c.toNat ≤ 55

/-- The translated control character for one escaped letter, if the letter
is one of the template escapes `\a \b \f \n \r \t \v \\`. -/
def tEsc (d : Char) : Option Char :=
  if d = 'a' then some (Char.ofNat 7)
  else if d = 'b' then some (Char.ofNat 8)
  else if d = 'f' then some (Char.ofNat 12)
  else if d = 'n' then some (Char.ofNat 10)
  else if d = 'r' then some (Char.ofNat 13)
  else if d = 't' then some (Char.ofNat 9)
  else if d = 'v' then some (Char.ofNat 11)
  else if d = '\\' then some '\\'
  else none

/-- Consume one replacement-template token; `none` is a template error
(bad escape). -/
def parseTStep : Str → Option (TItem × Str)
  | [] => none
  | '\\' :: rest =>
    match rest with
    | [] => none
    | d :: rest2 =>
      if d = '0' then
        match rest2 with
        | e1 :: rest3 =>
          if isOct e1 then
            match rest3 with
            | e2 :: rest4 =>
              if isOct e2 then
                some (TItem.lit [Char.ofNat ((e1.toNat - 48) * 8 +
                  (e2.toNat - 48))], rest4)
              else some (TItem.lit [Char.ofNat (e1.toNat - 48)], rest3)
            | [] => some (TItem.lit [Char.ofNat (e1.toNat - 48)], rest3)
          else some (TItem.lit [Char.ofNat 0], rest2)
        | [] => some (TItem.lit [Char.ofNat 0], rest2)
      else if d.isDigit then
        match rest2 with
        | e :: rest3 =>
          if e.isDigit then
            some (TItem.ref ((d.toNat - 48) * 10 + (e.toNat - 48)), rest3)
          else some (TItem.ref (d.toNat - 48), rest2)
        | [] => some (TItem.ref (d.toNat - 48), rest2)
      else if d = 'g' then none
      else
        match tEsc d with
        | some ch => some (TItem.lit [ch], rest2)
        | none =>
          if d.isAlpha then none else some (TItem.lit ['\\', d], rest2)
  | c :: rest => some (TItem.lit [c], rest)

theorem parseTStep_shrink (s : Str) (it : TItem) (rest : Str)
    (h : parseTStep s = some (it, rest)) : rest.length < s.length := by
  match s with
  | [] => simp [parseTStep] at h
  | c :: tail =>
    simp only [parseTStep] at h
    repeat' split at h
    all_goals try exact Option.noConfusion h
    all_goals
      injection h with h'
      injection h' with h1 h2
      subst h2
      simp_all
      try omega

/-- Fuel-bounded driver for template parsing (each token consumes at least
one character). -/
def parseTemplateF : Nat → Str → Option (List TItem)
  | 0, _ => none
  | _ + 1, [] => some []
  | fuel + 1, c :: tl =>
    match parseTStep (c :: tl) with
    | none => none
    | some (it, rest) => (parseTemplateF fuel rest).map (it :: ·)

/-- Parse a replacement-template fragment (the interpolated payload). -/
def parseTemplate (s : Str) : Option (List TItem) :=
  parseTemplateF (s.length + 1) s

/-- Resolve the parsed payload against the three groups of one match.
Group references above 3 are invalid for this pattern. -/
def resolveT (g1 g2 g3 : Str) : List TItem → Option Str
  | [] => some []
  | TItem.lit s :: rest => (resolveT g1 g2 g3 rest).map (s ++ ·)
  | TItem.ref n :: rest =>
    if n = 1 then (resolveT g1 g2 g3 rest).map (g1 ++ ·)
    else if n = 2 then (resolveT g1 g2 g3 rest).map (g2 ++ ·)
    else if n = 3 then (resolveT g1 g2 g3 rest).map (g3 ++ ·)
    else none

/-- Whether a parsed item is a group reference. -/
def isRefItem : TItem → Bool
  | TItem.ref _ => true
  | TItem.lit _ => false

/-- What template processing makes of a payload with no group references
(the result is then the same at every match). -/
def expandTemplateStr (payload : Str) : Option Str :=
  (parseTemplate payload).bind (resolveT [] [] [])

/-- A payload the replacement-template machinery passes through unchanged. -/
def stablePayload (payload : Str) : Bool :=
  expandTemplateStr payload = some payload

/-!  The carrier pattern of `inject_json` / `replace_json_in_lookup`:

`(<script[^>]*id=["'](?:data|html-support-data)["'][^>]*>\s*)([\s\S]*?)(\s*</script>)`

with `re.IGNORECASE`.  Since every piece of the tag part excludes `>`, the
`>` matched is the first `>` after `<script`, and the id pattern must occur
textually before it.  The lazy middle group ends at the first `</script>`
after the tag, with the greedy `\s*` of group 3 claiming the maximal
whitespace run before it (and group 1's greedy `\s*` the maximal run after
the `>`). -/

/-- Either quote character accepted by `["']`. -/
def isQuoteCh (q : Char) : Bool := q = dqCh ∨ q = sqCh

/-- One alternation branch of the id pattern: the literal value followed by
a closing quote (which need not pair with the opening one). -/
def idValAt (lit : Str) (r2 : Str) : Bool :=
  match stripLitCI lit r2 with
  | some (_, q2 :: _) => isQuoteCh q2
  | _ => false

/-- `id=["'](?:data|html-support-data)["']` at the head of `s`
(the alternation tries `data` first). -/
def idPatAt (s : Str) : Bool :=
  match stripLitCI "id=".data s with
  | some (_, q :: r2) =>
    isQuoteCh q &&
      (idValAt "data".data r2 || idValAt "html-support-data".data r2)
  | _ => false

/-- Does the id pattern occur anywhere in the tag body? -/
def hasIdPat : Str → Bool
  | [] => idPatAt []
  | s@(_ :: rest) => idPatAt s || hasIdPat rest

/-- Try the carrier pattern at the current position: on success return the
three groups and the remainder after the match. -/
def tryCarrier (s : Str) : Option (Str × Str × Str × Str) :=
  (stripLitCI "<script".data s).bind fun pr1 =>
  (splitAtChar gtCh pr1.2).bind fun pr2 =>
  if hasIdPat pr2.1 then
    (findLitCI "</script>".data
        (pr2.2.dropWhile (fun c => isWS c))).bind fun pr3 =>
    (stripLitCI "</script>".data pr3.2).map fun pr4 =>
      (pr1.1 ++ pr2.1 ++ [gtCh] ++ pr2.2.takeWhile (fun c => isWS c),
       (splitWSsuffix pr3.1).1,
       (splitWSsuffix pr3.1).2 ++ pr4.1, pr4.2)
  else none

/-- `rx.search` succeeds somewhere in the template. -/
def scanHasCarrier : Str → Bool
  | [] => (tryCarrier []).isSome
  | s@(_ :: rest) => (tryCarrier s).isSome || scanHasCarrier rest

theorem stripLitCI_decomp (lit : Str) :
    ∀ (s p r : Str), stripLitCI lit s = some (p, r) →
      s = p ++ r ∧ p.length = lit.length := by
  induction lit with
  | nil =>
    intro s p r h
    simp only [stripLitCI, Option.some.injEq, Prod.mk.injEq] at h
    obtain ⟨h1, h2⟩ := h
    subst h1; subst h2; simp
  | cons c cs ih =>
    intro s p r h
    cases s with
    | nil => simp [stripLitCI] at h
    | cons x xs =>
      simp only [stripLitCI] at h
      split at h
      · cases hm : stripLitCI cs xs with
        | none => rw [hm] at h; simp at h
        | some pr =>
          obtain ⟨p', r'⟩ := pr
          rw [hm] at h
          simp only [Option.map_some', Option.some.injEq, Prod.mk.injEq] at h
          obtain ⟨hp, hr⟩ := h
          subst hp; subst hr
          obtain ⟨hs, hl⟩ := ih xs p' r' hm
          subst hs
          simp [hl]
      · exact Option.noConfusion h

theorem splitAtChar_decomp (c : Char) :
    ∀ (s b a : Str), splitAtChar c s = some (b, a) → s = b ++ c :: a := by
  intro s
  induction s with
  | nil => intro b a h; simp [splitAtChar] at h
  | cons x xs ih =>
    intro b a h
    simp only [splitAtChar] at h
    split at h
    · simp only [Option.some.injEq, Prod.mk.injEq] at h
      obtain ⟨hb, ha⟩ := h
      subst hb; subst ha
      simp_all
    · cases hm : splitAtChar c xs with
      | none => rw [hm] at h; simp at h
      | some pr =>
        obtain ⟨b', a'⟩ := pr
        rw [hm] at h
        simp only [Option.map_some', Option.some.injEq, Prod.mk.injEq] at h
        obtain ⟨hb, ha⟩ := h
        subst hb; subst ha
        simp [ih b' a' hm]

theorem findLitCI_decomp (lit : Str) :
    ∀ (s b a : Str), findLitCI lit s = some (b, a) →
      s = b ++ a ∧ (stripLitCI lit a).isSome := by
  intro s
  induction s with
  | nil => intro b a h; simp [findLitCI] at h
  | cons x xs ih =>
    intro b a h
    simp only [findLitCI] at h
    split at h
    · simp only [Option.some.injEq, Prod.mk.injEq] at h
      obtain ⟨hb, ha⟩ := h
      subst hb; subst ha
      simp_all
    · cases hm : findLitCI lit xs with
      | none => rw [hm] at h; simp at h
      | some pr =>
        obtain ⟨b', a'⟩ := pr
        rw [hm] at h
        simp only [Option.map_some', Option.some.injEq, Prod.mk.injEq] at h
        obtain ⟨hb, ha⟩ := h
        subst hb; subst ha
        obtain ⟨hs, hst⟩ := ih b' a' hm
        subst hs
        simp [hst]

theorem splitWSsuffix_decomp (s : Str) :
    s = (splitWSsuffix s).1 ++ (splitWSsuffix s).2 := by
  simp [splitWSsuffix]

theorem tryCarrier_shrink (s g1 g2 g3 rest : Str)
    (h : tryCarrier s = some (g1, g2, g3, rest)) :
    rest.length < s.length := by
  unfold tryCarrier at h
  cases h1 : stripLitCI "<script".data s with
  | none => rw [h1] at h; exact Option.noConfusion h
  | some pr1 =>
    obtain ⟨lit1, r1⟩ := pr1
    rw [h1] at h
    simp only [Option.some_bind] at h
    cases h2 : splitAtChar gtCh r1 with
    | none => rw [h2] at h; exact Option.noConfusion h
    | some pr2 =>
      obtain ⟨tagBody, r2⟩ := pr2
      rw [h2] at h
      simp only [Option.some_bind] at h
      split at h
      · cases h3 : findLitCI "</script>".data
          (r2.dropWhile (fun c => isWS c)) with
        | none => rw [h3] at h; exact Option.noConfusion h
        | some pr3 =>
          obtain ⟨mid, atClose⟩ := pr3
          rw [h3] at h
          simp only [Option.some_bind] at h
          cases h4 : stripLitCI "</script>".data atClose with
          | none => rw [h4] at h; exact Option.noConfusion h
          | some pr4 =>
            obtain ⟨closeLit, rest'⟩ := pr4
            rw [h4] at h
            simp only [Option.map_some', Option.some.injEq,
              Prod.mk.injEq] at h
            obtain ⟨-, -, -, hr⟩ := h
            subst hr
            obtain ⟨hs1, hl1⟩ := stripLitCI_decomp _ _ _ _ h1
            have hs2 := splitAtChar_decomp _ _ _ _ h2
            obtain ⟨hs3, -⟩ := findLitCI_decomp _ _ _ _ h3
            obtain ⟨hs4, hl4⟩ := stripLitCI_decomp _ _ _ _ h4
            have hdw : (r2.dropWhile (fun c => isWS c)).length ≤ r2.length :=
              length_dropWhile_le' _ _
            rw [hs3, hs4] at hdw
            subst hs1; subst hs2
            simp only [List.length_append, List.length_cons] at *
            omega
      · exact Option.noConfusion h

/-- Fuel-bounded worker for the `re.sub` scan (a match's remainder is
strictly shorter, so `length + 1` fuel always suffices for the pattern
attempts used here). -/
def scanSubF (f : Str → Option (Str × Str)) : Nat → Str → Str
  | 0, _ => []
  | _ + 1, [] => []
  | fuel + 1, c :: rest =>
    match f (c :: rest) with
    | some (o, r) => o ++ scanSubF f fuel r
    | none => c :: scanSubF f fuel rest

/-- The `re.sub` scan: at each position try `f` (a pattern attempt returning
the replacement output and the remainder after the match); on failure copy
one character and move on; matches are non-overlapping, scanning resumes
after each match. -/
def scanSub (f : Str → Option (Str × Str)) (s : Str) : Str :=
  scanSubF f (s.length + 1) s

/-- Fuel-bounded worker for the `re.finditer` scan. -/
def scanAllF (f : Str → Option (α × Str)) : Nat → Str → List α
  | 0, _ => []
  | _ + 1, [] => []
  | fuel + 1, c :: rest =>
    match f (c :: rest) with
    | some (o, r) => o :: scanAllF f fuel r
    | none => scanAllF f fuel rest

/-- The `re.finditer` scan: same policy, collecting one value per match. -/
def scanAll (f : Str → Option (α × Str)) (s : Str) : List α :=
  scanAllF f (s.length + 1) s

/-- Errors `inject_json` can hit: no carrier element (it calls `die`), or a
replacement-template error raised by `re` (uncaught exception). -/
inductive InjErr where
  | noCarrier
  | badTemplate
deriving DecidableEq, Repr

instance : DecidableEq (Except InjErr Str) := fun a b =>
  match a, b with
  | Except.ok x, Except.ok y =>
    if h : x = y then isTrue (by rw [h])
    else isFalse (by intro he; cases he; exact h rfl)
  | Except.error x, Except.error y =>
    if h : x = y then isTrue (by rw [h])
    else isFalse (by intro he; cases he; exact h rfl)
  | Except.ok _, Except.error _ => isFalse (by intro he; cases he)
  | Except.error _, Except.ok _ => isFalse (by intro he; cases he)

/-- The per-match replacement of `rx.sub(rf"\1{payload}\3", ...)`: group 1,
the expanded payload (group references resolved against this match), group 3. -/
def carrierRepl (items : List TItem) (s : Str) : Option (Str × Str) :=
  (tryCarrier s).bind fun m =>
    (resolveT m.1 m.2.1 m.2.2.1 items).map fun exp =>
      (m.1 ++ exp ++ m.2.2.1, m.2.2.2)

theorem carrierRepl_shrink (items : List TItem) (s : Str) (o r : Str)
    (h : carrierRepl items s = some (o, r)) : r.length < s.length := by
  unfold carrierRepl at h
  cases h1 : tryCarrier s with
  | none => rw [h1] at h; exact Option.noConfusion h
  | some m =>
    obtain ⟨g1, g2, g3, rest⟩ := m
    rw [h1] at h
    simp only [Option.some_bind] at h
    cases h2 : resolveT g1 g2 g3 items with
    | none => rw [h2] at h; exact Option.noConfusion h
    | some exp =>
      rw [h2] at h
      simp only [Option.map_some', Option.some.injEq, Prod.mk.injEq] at h
      obtain ⟨-, hr⟩ := h
      subst hr
      exact tryCarrier_shrink _ _ _ _ _ h1

/-- A group reference the pattern's three groups cannot satisfy. -/
def badRefItem : TItem → Bool
  | TItem.ref n => n = 0 ∨ 3 < n
  | TItem.lit _ => false

/-- `inject_json(template_html, data)`:
search for the carrier pattern (`die` when absent), build
`payload = json.dumps(...).replace("</", "<\\/")`, and substitute every
match with `rf"\1{payload}\3"` — the payload passing through Python's
replacement-template processing (`.error .badTemplate` models the `re.error`
it raises on a bad escape or bad group reference, which Python reports at
`rx.sub` after the search has succeeded). -/
def inject_json (template_html : Str) (data : Bundle) : Except InjErr Str :=
  if scanHasCarrier template_html then
    match parseTemplate (escapeLtSlash (serializeBundle data)) with
    | none => Except.error InjErr.badTemplate
    | some items =>
      if items.any badRefItem then Except.error InjErr.badTemplate
      else Except.ok (scanSub (carrierRepl items) template_html)
  else Except.error InjErr.noCarrier

/-- The `die` message of `inject_json` when the carrier is missing. -/
def noCarrierMsg : Str :=
  ("Could not find a <script id=\"data\" " ++
   "type=\"application/json\">…</script> block in the template.").data

/-- The contents of the first carrier match of a document: the re-extraction
of the injected payload (group 2 of the pattern). -/
def extractPayload (t : Str) : Option Str :=
  ((scanAll (fun s => (tryCarrier s).map fun m => (m, m.2.2.2)) t).head?).map
    fun m => m.2.1

/-!  The anchor pattern of `TableGrabber.handle_endtag`:

`<a\b[^>]*href="([^"]+)"[^>]*>(.*?)</a>` with `re.I | re.S`.

`\b` after `<a` requires the next character to be a non-word character (or
the end).  The greedy `[^>]*` before `href="` backtracks from the longest
prefix, so candidate offsets are tried from the first `>` (or the string
end) downwards; `([^"]+)` runs to the next double quote and must be
non-empty; `[^>]*>` runs to the next `>`; the lazy `(.*?)</a>` ends at the
first `</a>`. -/

/-- Python `\w` on the ASCII range. -/
def wordCh (c : Char) : Bool := c.isAlphanum || c = '_'

/-- Offset of the first `>` (the string length when there is none): the
bound for the greedy `[^>]*`. -/
def gtIdx : Str → Nat
  | [] => 0
  | c :: rest => if c = gtCh then 0 else 1 + gtIdx rest

/-- Try `href="([^"]+)"[^>]*>(.*?)</a>` with the `[^>]*` prefix ending at
offset `o` of `r1`: on success `(href, text, rest)`. -/
def hrefAt (r1 : Str) (o : Nat) : Option (Str × Str × Str) :=
  (stripLitCI "href=\"".data (r1.drop o)).bind fun pr1 =>
  (splitAtChar dqCh pr1.2).bind fun pr2 =>
  if pr2.1 = [] then none
  else
    (splitAtChar gtCh pr2.2).bind fun pr3 =>
    (findLitCI "</a>".data pr3.2).bind fun pr4 =>
    (stripLitCI "</a>".data pr4.2).map fun pr5 =>
      (pr2.1, pr4.1, pr5.2)

/-- Greedy backtracking over the `[^>]*` prefix: largest offsets first. -/
def tryHrefDesc (r1 : Str) : Nat → Option (Str × Str × Str)
  | 0 => hrefAt r1 0
  | o + 1 =>
    match hrefAt r1 (o + 1) with
    | some v => some v
    | none => tryHrefDesc r1 o

/-- Try the anchor pattern at the current position:
on success `(href, text, rest)`. -/
def tryAnchor (s : Str) : Option (Str × Str × Str) :=
  (stripLitCI "<a".data s).bind fun pr1 =>
  if (match pr1.2 with
      | [] => true
      | c :: _ => ¬ wordCh c) then
    tryHrefDesc pr1.2 (gtIdx pr1.2)
  else none

theorem stripLitE_length (lit : Str) :
    ∀ (s r : Str), stripLitE lit s = some r →
      s.length = lit.length + r.length := by
  induction lit with
  | nil =>
    intro s r h
    simp only [stripLitE, Option.some.injEq] at h
    subst h; simp
  | cons c cs ih =>
    intro s r h
    cases s with
    | nil => simp [stripLitE] at h
    | cons x xs =>
      simp only [stripLitE] at h
      split at h
      · have := ih xs r h
        simp only [List.length_cons]
        omega
      · exact Option.noConfusion h

theorem hrefAt_decomp (r1 : Str) (o : Nat) (hrefV txt rest : Str)
    (h : hrefAt r1 o = some (hrefV, txt, rest)) :
    ∃ p1 x p4, r1.drop o =
        p1 ++ hrefV ++ dqCh :: x ++ gtCh :: txt ++ p4 ++ rest ∧
      p1.length = 6 ∧ p4.length = 4 ∧ hrefV ≠ [] := by
  unfold hrefAt at h
  cases h1 : stripLitCI "href=\"".data (r1.drop o) with
  | none => rw [h1] at h; exact Option.noConfusion h
  | some pr1 =>
    obtain ⟨p1, t2⟩ := pr1
    rw [h1] at h
    simp only [Option.some_bind] at h
    cases h2 : splitAtChar dqCh t2 with
    | none => rw [h2] at h; exact Option.noConfusion h
    | some pr2 =>
      obtain ⟨hv, t3⟩ := pr2
      rw [h2] at h
      simp only [Option.some_bind] at h
      split at h
      · exact Option.noConfusion h
      · cases h3 : splitAtChar gtCh t3 with
        | none => rw [h3] at h; exact Option.noConfusion h
        | some pr3 =>
          obtain ⟨x, t4⟩ := pr3
          rw [h3] at h
          simp only [Option.some_bind] at h
          cases h4 : findLitCI "</a>".data t4 with
          | none => rw [h4] at h; exact Option.noConfusion h
          | some pr4 =>
            obtain ⟨tx, atClose⟩ := pr4
            rw [h4] at h
            simp only [Option.some_bind] at h
            cases h5 : stripLitCI "</a>".data atClose with
            | none => rw [h5] at h; exact Option.noConfusion h
            | some pr5 =>
              obtain ⟨p4, rest'⟩ := pr5
              rw [h5] at h
              simp only [Option.map_some', Option.some.injEq,
                Prod.mk.injEq] at h
              obtain ⟨hh, ht, hr⟩ := h
              subst hh; subst ht; subst hr
              obtain ⟨e1, l1⟩ := stripLitCI_decomp _ _ _ _ h1
              have e2 := splitAtChar_decomp _ _ _ _ h2
              have e3 := splitAtChar_decomp _ _ _ _ h3
              obtain ⟨e4, -⟩ := findLitCI_decomp _ _ _ _ h4
              obtain ⟨e5, l5⟩ := stripLitCI_decomp _ _ _ _ h5
              rename_i hvne
              refine ⟨p1, x, p4, ?_, by simpa using l1, by simpa using l5,
                by simpa using hvne⟩
              rw [e1, e2, e3, e4, e5]
              simp

theorem tryHrefDesc_some (r1 : Str) :
    ∀ (o : Nat) (v : Str × Str × Str), tryHrefDesc r1 o = some v →
      ∃ oo, hrefAt r1 oo = some v := by
  intro o
  induction o with
  | zero => intro v h; exact ⟨0, h⟩
  | succ o ih =>
    intro v h
    simp only [tryHrefDesc] at h
    split at h
    · rename_i heq
      exact ⟨o + 1, by rw [heq]; exact h⟩
    · exact ih v h

theorem tryAnchor_shrink (s : Str) (hrefV txt rest : Str)
    (h : tryAnchor s = some (hrefV, txt, rest)) :
    rest.length < s.length := by
  unfold tryAnchor at h
  cases h1 : stripLitCI "<a".data s with
  | none => rw [h1] at h; exact Option.noConfusion h
  | some pr1 =>
    obtain ⟨p1, r1⟩ := pr1
    rw [h1] at h
    simp only [Option.some_bind] at h
    split at h
    · obtain ⟨oo, hoo⟩ := tryHrefDesc_some _ _ _ h
      obtain ⟨q1, x, q4, hdec, l1, l4, -⟩ := hrefAt_decomp _ _ _ _ _ hoo
      obtain ⟨e1, el1⟩ := stripLitCI_decomp _ _ _ _ h1
      have hdl : (r1.drop oo).length ≤ r1.length := by
        simpa using List.length_drop_le oo r1
      rw [hdec] at hdl
      rw [e1]
      simp only [List.length_append, List.length_cons] at *
      omega
    · exact Option.noConfusion h

/-!  `html.unescape`, modelled for the five core named references
`&amp; &lt; &gt; &quot; &apos;` (the standard library resolves the full
HTML5 entity table; the pipeline's inputs only exercise this core, and the
model leaves any other ampersand sequence untouched).  Note `&amp;`
unescapes to a single `&`. -/

def unescapeModelF : Nat → Str → Str
  | 0, _ => []
  | _ + 1, [] => []
  | fuel + 1, c :: rest =>
    if c = '&' then
      match stripLitE "amp;".data rest with
      | some r => '&' :: unescapeModelF fuel r
      | none =>
        match stripLitE "lt;".data rest with
        | some r => '<' :: unescapeModelF fuel r
        | none =>
          match stripLitE "gt;".data rest with
          | some r => gtCh :: unescapeModelF fuel r
          | none =>
            match stripLitE "quot;".data rest with
            | some r => dqCh :: unescapeModelF fuel r
            | none =>
              match stripLitE "apos;".data rest with
              | some r => sqCh :: unescapeModelF fuel r
              | none => c :: unescapeModelF fuel rest
    else c :: unescapeModelF fuel rest

/-- `html.unescape` (restricted model, see above). -/
def unescapeModel (s : Str) : Str := unescapeModelF (s.length + 1) s

/-- One `links.append({"href": ..., "text": ...})` value: the href group raw,
the text group unescaped, whitespace-collapsed, stripped. -/
def mkLink (hrefV txt : Str) : Link :=
  ⟨hrefV, stripWS (collapseWS (unescapeModel txt))⟩

/-- One `finditer` step over the cell markup. -/
def anchorStep (s : Str) : Option (Link × Str) :=
  (tryAnchor s).map fun v => (mkLink v.1 v.2.1, v.2.2)

theorem anchorStep_shrink (s : Str) (l : Link) (r : Str)
    (h : anchorStep s = some (l, r)) : r.length < s.length := by
  unfold anchorStep at h
  cases h1 : tryAnchor s with
  | none => rw [h1] at h; exact Option.noConfusion h
  | some v =>
    obtain ⟨hv, tv, rv⟩ := v
    rw [h1] at h
    simp only [Option.map_some', Option.some.injEq, Prod.mk.injEq] at h
    obtain ⟨-, hr⟩ := h
    subst hr
    exact tryAnchor_shrink _ _ _ _ h1

/-- The `for m in re.finditer(...)` loop building a cell's link list. -/
def extractLinks (cell_html : Str) : List Link :=
  scanAll anchorStep cell_html

/-!  `TableGrabber` as a fold over the HTML tokenizer's event stream.

`html.parser.HTMLParser` (constructed with `convert_charrefs=False`, so
entity and character references arrive as separate events) drives the
subclass through `handle_starttag` / `handle_endtag` / `handle_data` /
`handle_entityref` / `handle_charref`; the tokenizer lowercases tag and
attribute names and entity-decodes attribute values before dispatch.
`TableGrabber` overrides only the first three; the base-class defaults for
entity and character references do nothing, so those events leave the state
unchanged. -/

/-- One tokenizer event. -/
inductive HEvent where
  | startTag (tag : Str) (attrs : List (Str × Option Str))
  | endTag (tag : Str)
  | dataEv (s : Str)
  | entityRef (name : Str)
  | charRef (ref : Str)
deriving DecidableEq, Repr

/-- The mutable state set up by `TableGrabber.reset_state`. -/
structure GState where
  in_table : Bool
  table_seen : Bool
  in_caption : Bool
  caption_text : List Str
  caption_links : List Str
  in_thead : Bool
  thead_rows : List (List CellT)
  in_tr : Bool
  tr_cells : List CellT
  tr_has_th : Bool
  tr_has_td : Bool
  in_cell : Bool
  cell_text : List Str
  cell_html : List Str
  header_candidates : List (List CellT)
  data_rows : List (List CellT)
deriving DecidableEq, Repr

/-- `reset_state`. -/
def initGState : GState :=
  ⟨false, false, false, [], [], false, [], false, [], false, false, false,
   [], [], [], []⟩

/-- `"".join(f' {k}="{v}"' for k, v in attrs if v is not None)`. -/
def renderAttrs (attrs : List (Str × Option Str)) : Str :=
  (attrs.filterMap (fun kv =>
    kv.2.map (fun v => ' ' :: kv.1 ++ '=' :: dqCh :: v ++ [dqCh]))).flatten

/-- The reconstructed open tag recorded into `cell_html` (`<br>` special). -/
def renderStartTag (tag : Str) (attrs : List (Str × Option Str)) : Str :=
  if tag = "br".data then "<br>".data
  else '<' :: tag ++ renderAttrs attrs ++ [gtCh]

/-- The caption-link loop: first attribute whose lowercased name is `href`
with a truthy (non-empty) value. -/
def firstHref : List (Str × Option Str) → Option Str
  | [] => none
  | (k, v) :: rest =>
    match v with
    | some vv =>
      if lowerStr k = "href".data ∧ vv ≠ [] then some vv else firstHref rest
    | none => firstHref rest

/-- `TableGrabber.handle_starttag`. -/
def handle_starttag (st : GState) (tag : Str)
    (attrs : List (Str × Option Str)) : GState :=
  let st1 :=
    if tag = "table".data ∧ ¬ st.table_seen then
      { st with table_seen := true, in_table := true }
    else if st.in_table ∧ tag = "caption".data then
      { st with in_caption := true }
    else if st.in_table ∧ tag = "thead".data then
      { st with in_thead := true }
    else if st.in_table ∧ tag = "tr".data then
      { st with
        in_tr := true
        tr_cells := []
        tr_has_th := false
        tr_has_td := false }
    else if st.in_tr ∧ (tag = "td".data ∨ tag = "th".data) then
      { st with
        in_cell := true
        cell_text := []
        cell_html := []
        tr_has_th := st.tr_has_th ∨ tag = "th".data
        tr_has_td := st.tr_has_td ∨ tag = "td".data }
    else st
  let st2 :=
    if st1.in_caption ∧ tag = "a".data then
      match firstHref attrs with
      | some v => { st1 with caption_links := st1.caption_links ++ [v] }
      | none => st1
    else st1
  if st2.in_cell ∧ ¬ (tag = "td".data ∨ tag = "th".data) then
    { st2 with cell_html := st2.cell_html ++ [renderStartTag tag attrs] }
  else st2

/-- Line-break characters recognized by `str.splitlines` on the ASCII range
(the Unicode breaks are not modelled). -/
def isLB (c : Char) : Bool :=
  c = '\n' ∨ c = '\r' ∨ c.toNat = 11 ∨ c.toNat = 12

/-- `str.splitlines` worker; `cur` holds the current line reversed. -/
def slAux : Str → Str → List Str
  | cur, [] => if cur = [] then [] else [cur.reverse]
  | cur, '\r' :: '\n' :: rest => cur.reverse :: slAux [] rest
  | cur, c :: rest =>
    if isLB c then cur.reverse :: slAux [] rest else slAux (c :: cur) rest

/-- `str.splitlines`. -/
def splitlinesM (s : Str) : List Str := slAux [] s

/-- Cell completion inside `handle_endtag` for `td`/`th`: unescape the text
chunks, keep non-blank stripped lines joined by newlines, join the markup
chunks, extract the links, append the cell to the current row. -/
def finishCell (st : GState) : GState :=
  let text := unescapeModel st.cell_text.flatten
  let lines := ((splitlinesM text).map stripWS).filter (fun l => l ≠ [])
  let text_norm := List.intercalate "\n".data lines
  let cellHtml := st.cell_html.flatten
  let links := extractLinks cellHtml
  { st with
    tr_cells := st.tr_cells ++ [⟨text_norm, cellHtml, links⟩]
    in_cell := false
    cell_text := []
    cell_html := [] }

/-- Row completion inside `handle_endtag` for `tr`: classify a non-empty row
as header-ish (`th` and no `td`; into `thead_rows` inside `thead`, else into
`header_candidates`) or as a data row. -/
def finishRow (st : GState) : GState :=
  let st1 :=
    if st.tr_cells ≠ [] then
      if st.tr_has_th ∧ ¬ st.tr_has_td then
        if st.in_thead then
          { st with thead_rows := st.thead_rows ++ [st.tr_cells] }
        else
          { st with header_candidates :=
              st.header_candidates ++ [st.tr_cells] }
      else { st with data_rows := st.data_rows ++ [st.tr_cells] }
    else st
  { st1 with
    in_tr := false
    tr_cells := []
    tr_has_th := false
    tr_has_td := false }

/-- `TableGrabber.handle_endtag`. -/
def handle_endtag (st : GState) (tag : Str) : GState :=
  let st1 :=
    if tag = "caption".data ∧ st.in_caption then
      { st with in_caption := false }
    else if tag = "thead".data ∧ st.in_thead then
      { st with in_thead := false }
    else if (tag = "td".data ∨ tag = "th".data) ∧ st.in_cell then
      finishCell st
    else if tag = "tr".data ∧ st.in_tr then finishRow st
    else if tag = "table".data ∧ st.in_table then
      { st with in_table := false }
    else st
  if st1.in_cell ∧
      ¬ (tag = "td".data ∨ tag = "th".data ∨ tag = "br".data) then
    { st1 with cell_html := st1.cell_html ++ ['<' :: '/' :: tag ++ [gtCh]] }
  else st1

/-- `TableGrabber.handle_data`. -/
def handle_data (st : GState) (d : Str) : GState :=
  let st1 :=
    if st.in_cell then
      { st with
        cell_text := st.cell_text ++ [d]
        cell_html := st.cell_html ++ [d] }
    else st
  if st1.in_caption then
    { st1 with caption_text := st1.caption_text ++ [d] }
  else st1

/-- Event dispatch: references hit the base class's no-op defaults. -/
def grabStep (st : GState) : HEvent → GState
  | HEvent.startTag tag attrs => handle_starttag st tag attrs
  | HEvent.endTag tag => handle_endtag st tag
  | HEvent.dataEv d => handle_data st d
  | HEvent.entityRef _ => st
  | HEvent.charRef _ => st

/-- `TableGrabber().feed(document)` over the tokenizer's event stream. -/
def feedModel (events : List HEvent) : GState :=
  events.foldl grabStep initGState

/-!  The run from the point the bundle exists (`main`, lines 345-355),
as an event trace: `validate_for_lookup` prints one CI error line per
problem and `die`s on any; otherwise `main` reads the template, injects
(which can `die` on a missing carrier, or crash on a template error), then
writes the HTML output and the sibling JSON (carried as the bundle value;
its pretty-printing is not modelled).  Output-path plumbing is out of
scope. -/

/-- One observable step of the run. -/
inductive Ev where
  | errorMsg (s : Str)
  | fatal
  | readTemplate
  | writeHtml (s : Str)
  | writeJson (b : Bundle)
  | info (s : Str)
deriving DecidableEq, Repr

/-- The trace of `main` after `build_bundle`. -/
def runAfterBundle (bundle : Bundle) (templateText : Str) : List Ev :=
  let probs := validationProblems bundle
  if probs = [] then
    Ev.info (okMsg bundle) :: Ev.readTemplate ::
      (match inject_json templateText bundle with
       | Except.error InjErr.noCarrier => [Ev.errorMsg noCarrierMsg, Ev.fatal]
       | Except.error InjErr.badTemplate => [Ev.fatal]
       | Except.ok merged => [Ev.writeHtml merged, Ev.writeJson bundle])
  else probs.map Ev.errorMsg ++ [Ev.errorMsg valFailMsg, Ev.fatal]

/-!  Theorems. -/

theorem normHeader_eq_spec (h : Str) : normHeader h = normHeaderSpec h := by
  unfold normHeader normHeaderSpec
  by_cases h1 : lowerStr (stripWS (collapseWS h)) = "aural ui".data
  · simp [h1]
  · have h2 : stripWS (collapseWS h) ≠ "Aural UI".data := by
      intro he
      apply h1
      rw [he]
      decide
    simp [h1, h2]

theorem findExactRow_eq_find? (rs : List (List Str)) :
    findExactRow rs = (rs.map normalize_headers).find? rowHasExactElement := by
  induction rs with
  | nil => rfl
  | cons r rs ih =>
    simp only [findExactRow, List.map_cons]
    by_cases hp : rowHasExactElement (normalize_headers r)
    · simp [hp, List.find?_cons_of_pos]
    · simp [hp, List.find?_cons_of_neg, ih]

theorem findSubstrRow_eq_find? (rs : List (List Str)) :
    findSubstrRow rs = (rs.map normalize_headers).find? rowHasSubstrElement := by
  induction rs with
  | nil => rfl
  | cons r rs ih =>
    simp only [findSubstrRow, List.map_cons]
    by_cases hp : rowHasSubstrElement (normalize_headers r)
    · simp [hp, List.find?_cons_of_pos]
    · simp [hp, List.find?_cons_of_neg, ih]

/-- C1: Header Resolution returns the normalized header names of the first
matching row, searching thead rows for an exact case-insensitive `Element`
first, then the other header candidates for the same test, then all rows of
both accumulators for a name containing `element` as a case-insensitive
substring; normalization collapses internal whitespace, trims, and rewrites
an `aural ui` of any case to `AURAL UI`.  The source's `choose_header` and
`normalize_headers` coincide with the claim's tiered description
(`chooseHeaderSpec`, `normHeaderSpec`), with `[]` as the failure value. -/
theorem c1_header_resolution :
    (∀ h, normHeader h = normHeaderSpec h) ∧
    ∀ thead_rows header_candidates,
      choose_header thead_rows header_candidates =
        (chooseHeaderSpec thead_rows header_candidates).getD [] := by
  refine ⟨normHeader_eq_spec, fun thead cands => ?_⟩
  have hf : normHeaderSpec = normHeader :=
    funext fun x => (normHeader_eq_spec x).symm
  have hspec : ∀ rows : List (List Str),
      rows.map (fun r => r.map normHeaderSpec) =
        rows.map normalize_headers := by
    intro rows
    rw [hf]
    rfl
  unfold chooseHeaderSpec choose_header
  simp only [hspec, findExactRow_eq_find?, findSubstrRow_eq_find?,
    List.map_append]
  cases ((rows_to_text thead).map normalize_headers).find?
      rowHasExactElement with
  | some n => rfl
  | none =>
    cases ((rows_to_text cands).map normalize_headers).find?
        rowHasExactElement with
    | some n => rfl
    | none =>
      cases (((rows_to_text thead).map normalize_headers ++
          (rows_to_text cands).map normalize_headers)).find?
          rowHasSubstrElement with
      | some n => rfl
      | none => rfl

/-- C2: every Record in the projected rows of a Section has a present and
non-blank (after stripping) value at key `Element`: the projection filter
discards any other row. -/
theorem c2_element_invariant (headers : List Str) (rows : List (List CellT))
    (r : RecordT) (hr : r ∈ projectRows headers rows) :
    ∃ v, dictGet? elementKey r.fields = some v ∧ stripWS v ≠ [] := by
  unfold projectRows at hr
  rw [List.mem_filterMap] at hr
  obtain ⟨row, -, hrow⟩ := hr
  by_cases hb :
      stripWS ((dictGet? elementKey (projectRow headers row).fields).getD
        []) = []
  · simp [hb] at hrow
  · simp only [hb, if_false, Option.some.injEq] at hrow
    subst hrow
    cases hg : dictGet? elementKey (projectRow headers row).fields with
    | none =>
      rw [hg] at hb
      simp [stripWS] at hb
    | some v =>
      refine ⟨v, rfl, ?_⟩
      rw [hg] at hb
      simpa using hb

/-- C2 witness: a concrete projected record with its `Element` value. -/
theorem c2_element_invariant_witness :
    ∃ v, dictGet? elementKey
        (RecordT.mk [(elementKey, "x".data)] [] []).fields = some v ∧
      stripWS v ≠ [] :=
  c2_element_invariant ["Element".data] [[⟨"x".data, [], []⟩]]
    ⟨[(elementKey, "x".data)], [], []⟩ (by decide)

theorem dictGet?_set_self (k : Str) (v : α) (d : List (Str × α)) :
    dictGet? k (dictSet k v d) = some v := by
  induction d with
  | nil => simp [dictSet, dictGet?]
  | cons p rest ih =>
    obtain ⟨k', v'⟩ := p
    by_cases h : k' = k
    · simp [dictSet, dictGet?, h]
    · simp [dictSet, dictGet?, h, ih]

theorem dictGet?_set_ne (k k' : Str) (hne : k' ≠ k) (v : α)
    (d : List (Str × α)) : dictGet? k (dictSet k' v d) = dictGet? k d := by
  induction d with
  | nil => simp [dictSet, dictGet?, hne]
  | cons p rest ih =>
    obtain ⟨k'', v''⟩ := p
    by_cases h : k'' = k'
    · subst h
      simp [dictSet, dictGet?, hne]
    · by_cases h2 : k'' = k
      · have h3 : ¬ k = k' := by rw [← h2]; exact h
        simp [dictSet, dictGet?, h, h2, h3]
      · simp [dictSet, dictGet?, h, h2, ih]

theorem dictSet_of_get_none (k : Str) (v : α) (d : List (Str × α))
    (h : dictGet? k d = none) : dictSet k v d = d ++ [(k, v)] := by
  induction d with
  | nil => simp [dictSet]
  | cons p rest ih =>
    obtain ⟨k', v'⟩ := p
    simp only [dictGet?] at h
    by_cases hk : k' = k
    · simp [hk] at h
    · simp only [dictSet, hk, if_false, List.cons_append, List.cons.injEq,
        true_and]
      exact ih (by simpa [hk] using h)

theorem fold_get_notmem (pairs : List (Str × CellT)) (acc : RecordT)
    (k : Str) (hnm : k ∉ pairs.map Prod.fst) :
    dictGet? k (pairs.foldl projectStep acc).fields =
        dictGet? k acc.fields ∧
      dictGet? k (pairs.foldl projectStep acc).htmlMap =
        dictGet? k acc.htmlMap ∧
      dictGet? k (pairs.foldl projectStep acc).linksMap =
        dictGet? k acc.linksMap := by
  induction pairs generalizing acc with
  | nil => simp
  | cons p rest ih =>
    obtain ⟨k', c⟩ := p
    simp only [List.map_cons, List.mem_cons, not_or] at hnm
    obtain ⟨hne, hnm'⟩ := hnm
    have hne' : k' ≠ k := fun he => hne he.symm
    obtain ⟨i1, i2, i3⟩ := ih (projectStep acc (k', c)) hnm'
    refine ⟨?_, ?_, ?_⟩
    · rw [List.foldl_cons] at *
      rw [i1]
      simp only [projectStep]
      exact dictGet?_set_ne _ _ hne' _ _
    · rw [List.foldl_cons] at *
      rw [i2]
      simp only [projectStep]
      split
      · exact dictGet?_set_ne _ _ hne' _ _
      · rfl
    · rw [List.foldl_cons] at *
      rw [i3]
      simp only [projectStep]
      split
      · exact dictGet?_set_ne _ _ hne' _ _
      · rfl

theorem fold_get_unique (pairs : List (Str × CellT)) (acc : RecordT)
    (k : Str) (c : CellT) (hmem : (k, c) ∈ pairs)
    (hnd : (pairs.map Prod.fst).Nodup)
    (ha2 : dictGet? k acc.htmlMap = none)
    (ha3 : dictGet? k acc.linksMap = none) :
    dictGet? k (pairs.foldl projectStep acc).fields = some c.text ∧
      dictGet? k (pairs.foldl projectStep acc).htmlMap =
        (if stripWS c.html ≠ [] then some c.html else none) ∧
      dictGet? k (pairs.foldl projectStep acc).linksMap =
        (if c.links ≠ [] then some c.links else none) := by
  induction pairs generalizing acc with
  | nil => simp at hmem
  | cons p rest ih =>
    obtain ⟨k', c'⟩ := p
    simp only [List.map_cons, List.nodup_cons] at hnd
    obtain ⟨hknm, hnd'⟩ := hnd
    rcases List.mem_cons.mp hmem with hhead | htail
    · injection hhead with hk hc
      subst hk; subst hc
      obtain ⟨i1, i2, i3⟩ := fold_get_notmem rest (projectStep acc (k, c)) k
        hknm
      rw [List.foldl_cons, i1, i2, i3]
      simp only [projectStep]
      refine ⟨dictGet?_set_self _ _ _, ?_, ?_⟩
      · split
        · exact dictGet?_set_self _ _ _
        · exact ha2
      · split
        · exact dictGet?_set_self _ _ _
        · exact ha3
    · have hne : k' ≠ k := by
        intro he
        apply hknm
        rw [he]
        exact List.mem_map.mpr ⟨(k, c), htail, rfl⟩
      rw [List.foldl_cons]
      refine ih _ htail hnd' ?_ ?_
      · simp only [projectStep]
        split
        · rw [dictGet?_set_ne _ _ hne]
          exact ha2
        · exact ha2
      · simp only [projectStep]
        split
        · rw [dictGet?_set_ne _ _ hne]
          exact ha3
        · exact ha3

theorem fold_fields_keys (pairs : List (Str × CellT)) (acc : RecordT)
    (hnd : (pairs.map Prod.fst).Nodup)
    (hdis : ∀ k ∈ pairs.map Prod.fst, dictGet? k acc.fields = none) :
    ((pairs.foldl projectStep acc).fields).map Prod.fst =
      acc.fields.map Prod.fst ++ pairs.map Prod.fst := by
  induction pairs generalizing acc with
  | nil => simp
  | cons p rest ih =>
    obtain ⟨k, c⟩ := p
    simp only [List.map_cons, List.nodup_cons] at hnd
    obtain ⟨hknm, hnd'⟩ := hnd
    have hk := hdis k (by rw [List.map_cons]; exact List.mem_cons_self _ _)
    have hstep : (projectStep acc (k, c)).fields =
        acc.fields ++ [(k, c.text)] := by
      simp only [projectStep]
      exact dictSet_of_get_none _ _ _ hk
    rw [List.foldl_cons, ih (projectStep acc (k, c)) hnd']
    · rw [hstep]
      simp
    · intro k' hk'
      have hne : k ≠ k' := by
        intro he
        subst he
        exact hknm hk'
      simp only [projectStep]
      rw [dictGet?_set_ne _ _ hne]
      exact hdis k' (by rw [List.map_cons]; exact List.mem_cons_of_mem _ hk')

theorem mem_zip_replicate (e : CellT) :
    ∀ (l : List Str) (k : Str), k ∈ l →
      (k, e) ∈ l.zip (List.replicate l.length e) := by
  intro l
  induction l with
  | nil => intro k hk; cases hk
  | cons a rest ih =>
    intro k hk
    rcases List.mem_cons.mp hk with h | h
    · subst h
      simp [List.replicate]
    · simp only [List.length_cons, List.replicate, List.zip_cons_cons]
      exact List.mem_cons_of_mem _ (ih k h)

/-- C7: projection aligns every data row to exactly the header length: with
distinct headers the record's keys are exactly the headers in order; a row
with at least as many cells as headers is truncated to the first
`headers.length` cells (same record); and every trailing header name beyond
the row's length maps to the empty string with no `_html` and no `_links`
entry.  Projection is total, so neither case fails. -/
theorem c7_row_alignment (headers : List Str) (row : List CellT) :
    (headers.Nodup →
      ((projectRow headers row).fields).map Prod.fst = headers) ∧
    (headers.length ≤ row.length →
      projectRow headers row = projectRow headers (row.take headers.length)) ∧
    (∀ k, k ∈ headers.drop row.length → headers.Nodup →
      dictGet? k (projectRow headers row).fields = some [] ∧
        dictGet? k (projectRow headers row).htmlMap = none ∧
        dictGet? k (projectRow headers row).linksMap = none) := by
  have hcellslen : (row.take headers.length ++
      List.replicate (headers.length - row.length)
        (CellT.mk [] [] [])).length = headers.length := by
    simp only [List.length_append, List.length_take, List.length_replicate]
    omega
  refine ⟨?_, ?_, ?_⟩
  · intro hnd
    unfold projectRow
    have hlen : headers.length ≤ (row.take headers.length ++
        List.replicate (headers.length - row.length)
          (CellT.mk [] [] [])).length := by
      rw [hcellslen]
    rw [fold_fields_keys _ _
      (by rw [List.map_fst_zip _ _ hlen]; exact hnd)
      (by intro k _; simp [emptyRecord, dictGet?])]
    rw [List.map_fst_zip _ _ hlen]
    simp [emptyRecord]
  · intro hle
    unfold projectRow
    have h0 : headers.length - row.length = 0 := Nat.sub_eq_zero_of_le hle
    have h1 : headers.length - (row.take headers.length).length = 0 := by
      simp only [List.length_take]
      omega
    rw [h0, h1, List.take_take, min_self]
  · intro k hk hnd
    rcases Nat.lt_or_ge row.length headers.length with hlt | hge
    case inr =>
      rw [List.drop_eq_nil_of_le hge] at hk
      cases hk
    case inl =>
      unfold projectRow
      have htake : row.take headers.length = row :=
        List.take_of_length_le (Nat.le_of_lt hlt)
      have hzsplit : headers.zip (row.take headers.length ++
          List.replicate (headers.length - row.length)
            (CellT.mk [] [] [])) =
          (headers.take row.length).zip row ++
            (headers.drop row.length).zip
              (List.replicate (headers.length - row.length)
                (CellT.mk [] [] [])) := by
        rw [htake]
        conv_lhs =>
          arg 1
          rw [← List.take_append_drop row.length headers]
        apply List.zip_append
        simp only [List.length_take]
        omega
      have hrep : List.replicate (headers.length - row.length)
          (CellT.mk [] [] []) =
          List.replicate (headers.drop row.length).length
            (CellT.mk [] [] []) := by
        simp [List.length_drop]
      have hmem : (k, CellT.mk [] [] []) ∈ headers.zip
          (row.take headers.length ++
            List.replicate (headers.length - row.length)
              (CellT.mk [] [] [])) := by
        rw [hzsplit]
        apply List.mem_append_right
        rw [hrep]
        exact mem_zip_replicate _ _ _ hk
      have hndz : ((headers.zip (row.take headers.length ++
          List.replicate (headers.length - row.length)
            (CellT.mk [] [] []))).map Prod.fst).Nodup := by
        rw [List.map_fst_zip _ _ (by rw [hcellslen])]
        exact hnd
      have hres := fold_get_unique _ emptyRecord k (CellT.mk [] [] [])
        hmem hndz (by simp [emptyRecord, dictGet?])
        (by simp [emptyRecord, dictGet?])
      simpa [stripWS] using hres

/-- C7 witness: a short row is padded (the trailing header `Notes` maps to
the empty string with no side channels) and a long row is truncated to the
header length. -/
theorem c7_row_alignment_witness :
    (dictGet? "Notes".data
        (projectRow ["Element".data, "Notes".data]
          [⟨"x".data, [], []⟩]).fields = some [] ∧
      dictGet? "Notes".data
        (projectRow ["Element".data, "Notes".data]
          [⟨"x".data, [], []⟩]).htmlMap = none ∧
      dictGet? "Notes".data
        (projectRow ["Element".data, "Notes".data]
          [⟨"x".data, [], []⟩]).linksMap = none) ∧
    projectRow ["Element".data]
        [⟨"a".data, [], []⟩, ⟨"b".data, [], []⟩] =
      projectRow ["Element".data]
        ([⟨"a".data, [], []⟩, ⟨"b".data, [], []⟩].take 1) :=
  ⟨(c7_row_alignment ["Element".data, "Notes".data]
      [⟨"x".data, [], []⟩]).2.2 "Notes".data (by decide) (by decide),
   (c7_row_alignment ["Element".data]
      [⟨"a".data, [], []⟩, ⟨"b".data, [], []⟩]).2.1 (by decide)⟩

/-- C5: the Bundle Validator records a problem for every Section with empty
rows and a counted problem for every Section containing Records without a
non-blank `Element`; when any problems exist the trace is exactly the full
problem list (all of them), then the validation-failure message, then the
fatal stop — with no template read and no HTML or JSON output; when no
problems exist the run proceeds to read the template. -/
theorem c5_validator (bundle : Bundle) (templateText : Str) :
    (∀ sec ∈ bundle, sec.rows = [] →
      noRowsMsg sec ∈ validationProblems bundle) ∧
    (∀ sec ∈ bundle, sec.rows ≠ [] → 0 < missCount sec →
      missMsg sec ∈ validationProblems bundle) ∧
    (validationProblems bundle ≠ [] →
      runAfterBundle bundle templateText =
          (validationProblems bundle).map Ev.errorMsg ++
            [Ev.errorMsg valFailMsg, Ev.fatal] ∧
        Ev.readTemplate ∉ runAfterBundle bundle templateText ∧
        (∀ s, Ev.writeHtml s ∉ runAfterBundle bundle templateText) ∧
        (∀ b, Ev.writeJson b ∉ runAfterBundle bundle templateText)) ∧
    (validationProblems bundle = [] →
      Ev.readTemplate ∈ runAfterBundle bundle templateText) := by
  refine ⟨?_, ?_, ?_, ?_⟩
  · intro sec hsec hrows
    unfold validationProblems
    rw [List.mem_flatten]
    exact ⟨sectionProblems sec, List.mem_map.mpr ⟨sec, hsec, rfl⟩,
      by simp [sectionProblems, hrows]⟩
  · intro sec hsec hrows hmiss
    unfold validationProblems
    rw [List.mem_flatten]
    exact ⟨sectionProblems sec, List.mem_map.mpr ⟨sec, hsec, rfl⟩,
      by simp [sectionProblems, hrows, hmiss]⟩
  · intro hne
    have htr : runAfterBundle bundle templateText =
        (validationProblems bundle).map Ev.errorMsg ++
          [Ev.errorMsg valFailMsg, Ev.fatal] := by
      unfold runAfterBundle
      simp [hne]
    refine ⟨htr, ?_, ?_, ?_⟩
    · rw [htr]
      simp
    · intro s
      rw [htr]
      simp
    · intro b
      rw [htr]
      simp
  · intro hz
    unfold runAfterBundle
    simp [hz]

/-- C5 witness: a bundle with one rowless section produces its problem and a
trace with no template read; discharged on a concrete bundle. -/
theorem c5_validator_witness :
    noRowsMsg (SectionT.mk "JAWS".data [] [] [] []) ∈
        validationProblems [SectionT.mk "JAWS".data [] [] [] []] ∧
      Ev.readTemplate ∉
        runAfterBundle [SectionT.mk "JAWS".data [] [] [] []] [] :=
  ⟨(c5_validator [SectionT.mk "JAWS".data [] [] [] []] []).1
      (SectionT.mk "JAWS".data [] [] [] []) (by decide) rfl,
    ((c5_validator [SectionT.mk "JAWS".data [] [] [] []] []).2.2.1
      (by decide)).2.1⟩

theorem scanSubF_congr (f : Str → Option (Str × Str))
    (hf : ∀ s o r, f s = some (o, r) → r.length < s.length) :
    ∀ (fuel fuel' : Nat) (s : Str), s.length < fuel → s.length < fuel' →
      scanSubF f fuel s = scanSubF f fuel' s := by
  intro fuel
  induction fuel with
  | zero => intro fuel' s h1 _; exact absurd h1 (by omega)
  | succ n ih =>
    intro fuel' s h1 h2
    cases fuel' with
    | zero => exact absurd h2 (by omega)
    | succ m =>
      cases s with
      | nil => rfl
      | cons c rest =>
        simp only [scanSubF]
        cases hfs : f (c :: rest) with
        | some pr =>
          obtain ⟨o, r⟩ := pr
          have hlt := hf _ _ _ hfs
          simp only [List.length_cons] at h1 h2 hlt
          dsimp only
          rw [ih m r (by omega) (by omega)]
        | none =>
          simp only [List.length_cons] at h1 h2
          dsimp only
          rw [ih m rest (by omega) (by omega)]

theorem scanSub_match (f : Str → Option (Str × Str))
    (hf : ∀ s o r, f s = some (o, r) → r.length < s.length)
    {s o r : Str} (h : f s = some (o, r)) :
    scanSub f s = o ++ scanSub f r := by
  have hlt := hf _ _ _ h
  cases s with
  | nil => exact absurd hlt (by simp)
  | cons c rest =>
    unfold scanSub
    simp only [List.length_cons, scanSubF, h]
    congr 1
    exact scanSubF_congr f hf _ _ _ (by simp at hlt; omega) (by omega)

theorem scanSub_nil (f : Str → Option (Str × Str)) : scanSub f [] = [] := rfl

theorem scanSub_cons_none (f : Str → Option (Str × Str))
    {c : Char} {rest : Str} (h : f (c :: rest) = none) :
    scanSub f (c :: rest) = c :: scanSub f rest := by
  unfold scanSub
  simp only [List.length_cons, scanSubF, h]

theorem scanSub_skip (f : Str → Option (Str × Str)) :
    ∀ (k : Nat) (t : Str), (∀ j, j < k → f (t.drop j) = none) →
      scanSub f t = t.take k ++ scanSub f (t.drop k) := by
  intro k
  induction k with
  | zero => intro t _; simp
  | succ k ih =>
    intro t hnone
    cases t with
    | nil => simp
    | cons c rest =>
      have h0 := hnone 0 (Nat.succ_pos _)
      simp only [List.drop_zero] at h0
      rw [scanSub_cons_none f h0]
      rw [ih rest (fun j hj => by
        have := hnone (j + 1) (Nat.succ_lt_succ hj)
        simpa using this)]
      simp

theorem scanAllF_congr {α : Type} (f : Str → Option (α × Str))
    (hf : ∀ s o r, f s = some (o, r) → r.length < s.length) :
    ∀ (fuel fuel' : Nat) (s : Str), s.length < fuel → s.length < fuel' →
      scanAllF f fuel s = scanAllF f fuel' s := by
  intro fuel
  induction fuel with
  | zero => intro fuel' s h1 _; exact absurd h1 (by omega)
  | succ n ih =>
    intro fuel' s h1 h2
    cases fuel' with
    | zero => exact absurd h2 (by omega)
    | succ m =>
      cases s with
      | nil => rfl
      | cons c rest =>
        simp only [scanAllF]
        cases hfs : f (c :: rest) with
        | some pr =>
          obtain ⟨o, r⟩ := pr
          have hlt := hf _ _ _ hfs
          simp only [List.length_cons] at h1 h2 hlt
          dsimp only
          rw [ih m r (by omega) (by omega)]
        | none =>
          simp only [List.length_cons] at h1 h2
          dsimp only
          rw [ih m rest (by omega) (by omega)]

theorem scanAll_match {α : Type} (f : Str → Option (α × Str))
    (hf : ∀ s o r, f s = some (o, r) → r.length < s.length)
    {s : Str} {o : α} {r : Str} (h : f s = some (o, r)) :
    scanAll f s = o :: scanAll f r := by
  have hlt := hf _ _ _ h
  cases s with
  | nil => exact absurd hlt (by simp)
  | cons c rest =>
    unfold scanAll
    simp only [List.length_cons, scanAllF, h]
    congr 1
    exact scanAllF_congr f hf _ _ _ (by simp at hlt; omega) (by omega)

theorem scanAll_nil {α : Type} (f : Str → Option (α × Str)) :
    scanAll f [] = ([] : List α) := rfl

theorem scanAll_cons_none {α : Type} (f : Str → Option (α × Str))
    {c : Char} {rest : Str} (h : f (c :: rest) = none) :
    scanAll f (c :: rest) = scanAll f rest := by
  unfold scanAll
  simp only [List.length_cons, scanAllF, h]

theorem scanAll_skip {α : Type} (f : Str → Option (α × Str)) :
    ∀ (k : Nat) (t : Str), (∀ j, j < k → f (t.drop j) = none) →
      scanAll f t = scanAll f (t.drop k) := by
  intro k
  induction k with
  | zero => intro t _; simp
  | succ k ih =>
    intro t hnone
    cases t with
    | nil => simp
    | cons c rest =>
      have h0 := hnone 0 (Nat.succ_pos _)
      simp only [List.drop_zero] at h0
      rw [scanAll_cons_none f h0]
      exact ih rest (fun j hj => by
        have := hnone (j + 1) (Nat.succ_lt_succ hj)
        simpa using this)

theorem scanHasCarrier_false_iff (t : Str) :
    scanHasCarrier t = false ↔
      ∀ i, i < t.length → tryCarrier (t.drop i) = none := by
  induction t with
  | nil => simp [scanHasCarrier, show tryCarrier [] = none from rfl]
  | cons c rest ih =>
    simp only [scanHasCarrier, Bool.or_eq_false_iff, List.length_cons]
    constructor
    · rintro ⟨h1, h2⟩
      intro i hi
      cases i with
      | zero =>
        simpa using Option.not_isSome_iff_eq_none.mp (by simp [h1])
      | succ j =>
        simpa using ih.mp h2 j (Nat.lt_of_succ_lt_succ hi)
    · intro h
      refine ⟨?_, ih.mpr fun j hj => by
        simpa using h (j + 1) (Nat.succ_lt_succ hj)⟩
      have := h 0 (Nat.succ_pos _)
      simp only [List.drop_zero] at this
      simp [this]

/-!  Attribute-level reading of the carrier contract, following the claim's
words: a script-tagged element whose `id` *attribute* equals `data` or
`html-support-data` (either quoting style, other attributes in any order),
with a subsequent closing tag.  This is a specification-side definition (a
real HTML attribute tokenizer) used only to compare the source's textual
scan against the claim. -/

/-- Skip leading whitespace. -/
def skipWSs (s : Str) : Str := s.dropWhile (fun c => isWS c)

/-- A simple HTML attribute tokenizer for one tag body (fuel-bounded). -/
def parseAttrsAux : Nat → Str → List (Str × Option Str)
  | 0, _ => []
  | fuel + 1, s0 =>
    let s := skipWSs s0
    match s with
    | [] => []
    | _ =>
      let name := s.takeWhile
        (fun c => ¬ (isWS c ∨ c = '=' ∨ c = '/' ∨ c = gtCh))
      let s1 := s.drop name.length
      if name = [] then parseAttrsAux fuel (s1.drop 1)
      else
        match skipWSs s1 with
        | '=' :: s3 =>
          match skipWSs s3 with
          | q :: s5 =>
            if q = dqCh ∨ q = sqCh then
              let v := s5.takeWhile (fun c => c ≠ q)
              (name, some v) :: parseAttrsAux fuel (s5.drop (v.length + 1))
            else
              let v := (q :: s5).takeWhile (fun c => ¬ (isWS c ∨ c = gtCh))
              (name, some v) :: parseAttrsAux fuel ((q :: s5).drop v.length)
          | [] => [(name, some [])]
        | s2 => (name, none) :: parseAttrsAux fuel s2

/-- Attribute list of a tag body. -/
def parseAttrsOf (tagBody : Str) : List (Str × Option Str) :=
  parseAttrsAux (tagBody.length + 1) tagBody

/-- Is there, at this position, a `script` element whose `id` attribute
equals one of the two sentinel values, with a later closing tag? -/
def scriptElemWithIdAt (s : Str) : Bool :=
  match stripLitCI "<script".data s with
  | none => false
  | some (_, r1) =>
    (match r1 with
     | [] => false
     | c :: _ => isWS c ∨ c = '/' ∨ c = gtCh) &&
    (match splitAtChar gtCh r1 with
     | none => false
     | some (tagBody, rest) =>
       ((parseAttrsOf tagBody).any fun kv =>
         lowerStr kv.1 = "id".data ∧
           (kv.2 = some "data".data ∨ kv.2 = some "html-support-data".data))
       && hasSubstrCI "</script>".data rest)

/-- The claim's notion: the template contains a script-tagged element whose
`id` attribute equals `data` or `html-support-data`. -/
def hasCarrierElement : Str → Bool
  | [] => scriptElemWithIdAt []
  | s@(_ :: rest) => scriptElemWithIdAt s || hasCarrierElement rest

/-- C6 counterexample: on the template `<script xid="data">x</script>` — which
contains no script element whose `id` attribute equals `data` or
`html-support-data` (its only attribute is named `xid`) — injection does not
fail: the textual scan `[^>]*id=...` accepts `xid="data"`.  This refutes the
claim's "fails if and only if no such element exists". -/
theorem c6_counterexample :
    (inject_json "<script xid=\"data\">x</script>".data
        [SectionT.mk "X".data [] [] [] []]).isOk = true ∧
      hasCarrierElement "<script xid=\"data\">x</script>".data = false := by
  constructor
  · decide
  · decide

/-- C6 (amended): injection fails with the descriptive carrier error if and
only if no position of the template matches the textual carrier pattern
(`<script`, then non-`>` characters containing `id=` + quote + sentinel +
quote — the attribute-name match being textual, so e.g. `xid="data"` is also
accepted — then `>`, followed later by `</script>`); on this failure, after
a clean validation the run stops with the descriptive error and writes no
HTML and no JSON output. -/
theorem c6_carrier_failure (t : Str) (b : Bundle) :
    ((inject_json t b = Except.error InjErr.noCarrier) ↔
      ∀ i, i < t.length → tryCarrier (t.drop i) = none) ∧
    (validationProblems b = [] →
      inject_json t b = Except.error InjErr.noCarrier →
      runAfterBundle b t = [Ev.info (okMsg b), Ev.readTemplate,
          Ev.errorMsg noCarrierMsg, Ev.fatal] ∧
        (∀ s, Ev.writeHtml s ∉ runAfterBundle b t) ∧
        (∀ b', Ev.writeJson b' ∉ runAfterBundle b t)) := by
  constructor
  · rw [← scanHasCarrier_false_iff]
    unfold inject_json
    by_cases hs : scanHasCarrier t
    · rw [if_pos hs]
      constructor
      · intro h
        exfalso
        cases hp : parseTemplate (escapeLtSlash (serializeBundle b)) with
        | none =>
          rw [hp] at h
          exact InjErr.noConfusion (Except.error.inj h)
        | some items =>
          rw [hp] at h
          dsimp only at h
          split at h
          · exact InjErr.noConfusion (Except.error.inj h)
          · exact Except.noConfusion h
      · intro hfalse
        rw [hs] at hfalse
        exact absurd hfalse (by simp)
    · have hs' : scanHasCarrier t = false := by
        simpa using hs
      rw [if_neg hs, hs']
      simp
  · intro hval hinj
    have htr : runAfterBundle b t = [Ev.info (okMsg b), Ev.readTemplate,
        Ev.errorMsg noCarrierMsg, Ev.fatal] := by
      unfold runAfterBundle
      rw [if_pos hval, hinj]
    refine ⟨htr, ?_, ?_⟩
    · intro s
      rw [htr]
      simp
    · intro b'
      rw [htr]
      simp

/-- C6 witness: a carrier-free template makes injection fail and the run
stop with the descriptive error and no output events. -/
theorem c6_carrier_failure_witness :
    runAfterBundle
        [SectionT.mk "X".data [] [] []
          [RecordT.mk [(elementKey, "x".data)] [] []]]
        "<p>no carrier here</p>".data =
      [Ev.info (okMsg [SectionT.mk "X".data [] [] []
          [RecordT.mk [(elementKey, "x".data)] [] []]]),
        Ev.readTemplate, Ev.errorMsg noCarrierMsg, Ev.fatal] :=
  ((c6_carrier_failure "<p>no carrier here</p>".data
      [SectionT.mk "X".data [] [] []
        [RecordT.mk [(elementKey, "x".data)] [] []]]).2
    (by decide) (by decide)).1

/-- The literal text of a parsed template with the group references
dropped. -/
def flattenLits : List TItem → Str
  | [] => []
  | TItem.lit s :: rest => s ++ flattenLits rest
  | TItem.ref _ :: rest => flattenLits rest

theorem resolveT_of_noref (a b c : Str) :
    ∀ (items : List TItem), (∀ it ∈ items, isRefItem it = false) →
      resolveT a b c items = some (flattenLits items) := by
  intro items
  induction items with
  | nil => intro _; rfl
  | cons it rest ih =>
    intro hno
    cases it with
    | lit s =>
      simp only [resolveT, flattenLits]
      rw [ih (fun x hx => hno x (List.mem_cons_of_mem _ hx))]
      rfl
    | ref n =>
      have := hno (TItem.ref n) (List.mem_cons_self _ _)
      simp [isRefItem] at this

theorem ball_lt_of_range (n : Nat) (P : Nat → Prop)
    (h : ∀ j ∈ List.range n, P j) : ∀ j, j < n → P j :=
  fun j hj => h j (List.mem_range.mpr hj)

theorem carrierRepl_none (items : List TItem) (s : Str)
    (h : tryCarrier s = none) : carrierRepl items s = none := by
  simp [carrierRepl, h]

theorem carrierRepl_matches (items : List TItem) (s a b2 c3 r e : Str)
    (h1 : tryCarrier s = some (a, b2, c3, r))
    (h2 : resolveT a b2 c3 items = some e) :
    carrierRepl items s = some (a ++ e ++ c3, r) := by
  simp [carrierRepl, h1, h2]

/-- C10 (implicit): if the template contains two carrier matches (and no
others), `rx.sub` replaces the payload of *both* with the same serialized
Bundle — substitution is global, not limited to the first match.  The
hypotheses fix the two match sites (with their groups) and require the
escaped payload to pass through template processing unchanged (reference-free
literals that flatten back to the payload). -/
theorem c10_global_substitution (p1 c1 p2 c2 p3 : Str) (b : Bundle)
    (g1 g2 g3 g1' g2' g3' : Str) (items : List TItem)
    (hparse : parseTemplate (escapeLtSlash (serializeBundle b)) = some items)
    (hnoref : ∀ it ∈ items, isRefItem it = false)
    (hflat : flattenLits items = escapeLtSlash (serializeBundle b))
    (hm1 : tryCarrier (c1 ++ (p2 ++ (c2 ++ p3))) =
      some (g1, g2, g3, p2 ++ (c2 ++ p3)))
    (hm2 : tryCarrier (c2 ++ p3) = some (g1', g2', g3', p3))
    (hn1 : ∀ j, j < p1.length →
      tryCarrier ((p1 ++ (c1 ++ (p2 ++ (c2 ++ p3)))).drop j) = none)
    (hn2 : ∀ j, j < p2.length →
      tryCarrier ((p2 ++ (c2 ++ p3)).drop j) = none)
    (hn3 : ∀ j, j < p3.length → tryCarrier (p3.drop j) = none) :
    inject_json (p1 ++ (c1 ++ (p2 ++ (c2 ++ p3)))) b =
      Except.ok (p1 ++ (g1 ++ escapeLtSlash (serializeBundle b) ++ g3 ++
        (p2 ++ (g1' ++ escapeLtSlash (serializeBundle b) ++ g3' ++ p3)))) := by
  have hresolve : ∀ a b2 c3 : Str, resolveT a b2 c3 items =
      some (escapeLtSlash (serializeBundle b)) := by
    intro a b2 c3
    rw [resolveT_of_noref a b2 c3 items hnoref, hflat]
  have hanyfalse : items.any badRefItem = false := by
    rw [List.any_eq_false]
    intro it hit
    have := hnoref it hit
    cases it with
    | lit s => simp [badRefItem]
    | ref n => simp [isRefItem] at this
  have hscan : scanHasCarrier (p1 ++ (c1 ++ (p2 ++ (c2 ++ p3)))) = true := by
    by_contra hcon
    have hfalse : scanHasCarrier (p1 ++ (c1 ++ (p2 ++ (c2 ++ p3)))) =
        false := by
      simpa using hcon
    have hshr := tryCarrier_shrink _ _ _ _ _ hm1
    have hlt : p1.length < (p1 ++ (c1 ++ (p2 ++ (c2 ++ p3)))).length := by
      simp only [List.length_append] at *
      omega
    have := (scanHasCarrier_false_iff _).mp hfalse p1.length hlt
    rw [List.drop_left] at this
    rw [this] at hm1
    exact Option.noConfusion hm1
  unfold inject_json
  rw [if_pos hscan, hparse]
  dsimp only
  rw [if_neg (by rw [hanyfalse]; simp)]
  have hstep1 : scanSub (carrierRepl items) (p1 ++ (c1 ++ (p2 ++ (c2 ++ p3))))
      = p1 ++ scanSub (carrierRepl items) (c1 ++ (p2 ++ (c2 ++ p3))) := by
    rw [scanSub_skip (carrierRepl items) p1.length _
      (fun j hj => carrierRepl_none items _ (hn1 j hj))]
    rw [List.take_left, List.drop_left]
  have hstep2 : scanSub (carrierRepl items) (c1 ++ (p2 ++ (c2 ++ p3))) =
      (g1 ++ escapeLtSlash (serializeBundle b) ++ g3) ++
        scanSub (carrierRepl items) (p2 ++ (c2 ++ p3)) :=
    scanSub_match (carrierRepl items) (carrierRepl_shrink items)
      (carrierRepl_matches items _ _ _ _ _ _ hm1 (hresolve _ _ _))
  have hstep3 : scanSub (carrierRepl items) (p2 ++ (c2 ++ p3)) =
      p2 ++ scanSub (carrierRepl items) (c2 ++ p3) := by
    rw [scanSub_skip (carrierRepl items) p2.length _
      (fun j hj => carrierRepl_none items _ (hn2 j hj))]
    rw [List.take_left, List.drop_left]
  have hstep4 : scanSub (carrierRepl items) (c2 ++ p3) =
      (g1' ++ escapeLtSlash (serializeBundle b) ++ g3') ++
        scanSub (carrierRepl items) p3 :=
    scanSub_match (carrierRepl items) (carrierRepl_shrink items)
      (carrierRepl_matches items _ _ _ _ _ _ hm2 (hresolve _ _ _))
  have hstep5 : scanSub (carrierRepl items) p3 = p3 := by
    rw [scanSub_skip (carrierRepl items) p3.length _
      (fun j hj => carrierRepl_none items _ (hn3 j hj))]
    rw [List.drop_length]
    simp [scanSub_nil]
  rw [hstep1, hstep2, hstep3, hstep4, hstep5]

/-- C10 witness: a concrete template with two carrier elements (one
double-quoted `data`, one single-quoted `html-support-data`); both payloads
are replaced with the same escaped serialization. -/
theorem c10_global_substitution_witness :
    inject_json
        ("<p>".data ++ ("<script id=\"data\">A</script>".data ++
          ("<q>".data ++
            (("<script id=".data ++ [sqCh] ++ "html-support-data".data ++
              [sqCh] ++ ">B</script>".data) ++ "<r>".data))))
        [SectionT.mk "X".data "c".data [] []
          [RecordT.mk [(elementKey, "ok".data)] [] []]] =
      Except.ok
        ("<p>".data ++ ("<script id=\"data\">".data ++
          escapeLtSlash (serializeBundle
            [SectionT.mk "X".data "c".data [] []
              [RecordT.mk [(elementKey, "ok".data)] [] []]]) ++
          "</script>".data ++
          ("<q>".data ++ (("<script id=".data ++ [sqCh] ++
              "html-support-data".data ++ [sqCh] ++ ">".data) ++
            escapeLtSlash (serializeBundle
              [SectionT.mk "X".data "c".data [] []
                [RecordT.mk [(elementKey, "ok".data)] [] []]]) ++
            "</script>".data ++ "<r>".data)))) :=
  c10_global_substitution "<p>".data
    "<script id=\"data\">A</script>".data "<q>".data
    ("<script id=".data ++ [sqCh] ++ "html-support-data".data ++ [sqCh] ++
      ">B</script>".data) "<r>".data
    [SectionT.mk "X".data "c".data [] []
      [RecordT.mk [(elementKey, "ok".data)] [] []]]
    "<script id=\"data\">".data "A".data "</script>".data
    ("<script id=".data ++ [sqCh] ++ "html-support-data".data ++ [sqCh] ++
      ">".data) "B".data "</script>".data
    ((parseTemplate (escapeLtSlash (serializeBundle
      [SectionT.mk "X".data "c".data [] []
        [RecordT.mk [(elementKey, "ok".data)] [] []]]))).getD [])
    (by decide) (by decide) (by decide) (by decide) (by decide)
    (ball_lt_of_range _ _ (by decide)) (ball_lt_of_range _ _ (by decide))
    (ball_lt_of_range _ _ (by decide))

/-- C3 (code bug): for a Bundle whose `Element` text contains a backslash,
the text actually substituted into the template is *not*
`json.dumps(...).replace("</", "<\\/")`: the payload passes through `re.sub`
replacement-template processing, which collapses the JSON escape `\\` to a
single backslash.  The first conjunct shows the injected document carries
the template-expanded payload; the second shows that expansion differs from
the escaped serialization the claim (and the code's own comment) promise. -/
theorem c3_payload_substitution_bug :
    inject_json "<script id=\"data\">OLD</script>".data
        [SectionT.mk "X".data "c".data [] []
          [RecordT.mk [(elementKey, ['a', '\\', 'b'])] [] []]] =
      Except.ok ("<script id=\"data\">".data ++
        ((expandTemplateStr (escapeLtSlash (serializeBundle
          [SectionT.mk "X".data "c".data [] []
            [RecordT.mk [(elementKey, ['a', '\\', 'b'])] [] []]]))).getD []
        ++ "</script>".data)) ∧
    expandTemplateStr (escapeLtSlash (serializeBundle
        [SectionT.mk "X".data "c".data [] []
          [RecordT.mk [(elementKey, ['a', '\\', 'b'])] [] []]])) ≠
      some (escapeLtSlash (serializeBundle
        [SectionT.mk "X".data "c".data [] []
          [RecordT.mk [(elementKey, ['a', '\\', 'b'])] [] []]])) := by
  constructor
  · decide
  · decide

/-- C4 (code bug): injecting a Bundle whose `Element` text contains a
newline and re-extracting the carrier's contents does not yield the
serialized Bundle: template processing turns the JSON escape `\n` into a raw
newline character (last conjunct), so the extracted text differs from the
escaped serialization and is not valid JSON for the Bundle. -/
theorem c4_roundtrip_bug :
    extractPayload ((inject_json "<script id=\"data\">OLD</script>".data
        [SectionT.mk "X".data "c".data [] []
          [RecordT.mk [(elementKey, ['l', '1', '\n', 'l', '2'])] [] []]]
      ).toOption.getD []) =
      some ((expandTemplateStr (escapeLtSlash (serializeBundle
        [SectionT.mk "X".data "c".data [] []
          [RecordT.mk [(elementKey, ['l', '1', '\n', 'l', '2'])] [] []]]
        ))).getD []) ∧
    (expandTemplateStr (escapeLtSlash (serializeBundle
        [SectionT.mk "X".data "c".data [] []
          [RecordT.mk [(elementKey, ['l', '1', '\n', 'l', '2'])] [] []]]
      ))).getD [] ≠
      escapeLtSlash (serializeBundle
        [SectionT.mk "X".data "c".data [] []
          [RecordT.mk [(elementKey, ['l', '1', '\n', 'l', '2'])] [] []]]) ∧
    '\n' ∈ (expandTemplateStr (escapeLtSlash (serializeBundle
        [SectionT.mk "X".data "c".data [] []
          [RecordT.mk [(elementKey, ['l', '1', '\n', 'l', '2'])] [] []]]
      ))).getD [] := by
  refine ⟨?_, ?_, ?_⟩
  · decide
  · decide
  · decide

/-- C8 (code bug): `TableGrabber` is constructed with
`convert_charrefs=False` but overrides neither `handle_entityref` nor
`handle_charref`, so a reference like `&amp;` inside a cell or the caption
is silently dropped from both the text and the markup accumulators: feeding
`<table><caption>C&amp;D</caption><tr><th>Element</th></tr>
<tr><td>A&amp;B</td></tr></table>` yields cell text and markup `AB` (the
claim requires `A&amp;B` preserved verbatim) and caption chunks `C`, `D`. -/
theorem c8_entity_refs_dropped :
    (feedModel
        [HEvent.startTag "table".data [],
          HEvent.startTag "caption".data [],
          HEvent.dataEv "C".data, HEvent.entityRef "amp".data,
          HEvent.dataEv "D".data, HEvent.endTag "caption".data,
          HEvent.startTag "tr".data [], HEvent.startTag "th".data [],
          HEvent.dataEv "Element".data, HEvent.endTag "th".data,
          HEvent.endTag "tr".data,
          HEvent.startTag "tr".data [], HEvent.startTag "td".data [],
          HEvent.dataEv "A".data, HEvent.entityRef "amp".data,
          HEvent.dataEv "B".data, HEvent.endTag "td".data,
          HEvent.endTag "tr".data,
          HEvent.endTag "table".data]).data_rows =
      [[CellT.mk "AB".data "AB".data []]] ∧
    (feedModel
        [HEvent.startTag "table".data [],
          HEvent.startTag "caption".data [],
          HEvent.dataEv "C".data, HEvent.entityRef "amp".data,
          HEvent.dataEv "D".data, HEvent.endTag "caption".data,
          HEvent.startTag "tr".data [], HEvent.startTag "th".data [],
          HEvent.dataEv "Element".data, HEvent.endTag "th".data,
          HEvent.endTag "tr".data,
          HEvent.startTag "tr".data [], HEvent.startTag "td".data [],
          HEvent.dataEv "A".data, HEvent.entityRef "amp".data,
          HEvent.dataEv "B".data, HEvent.endTag "td".data,
          HEvent.endTag "tr".data,
          HEvent.endTag "table".data]).caption_text =
      ["C".data, "D".data] := by
  constructor
  · decide
  · decide

/-- C9 counterexample: a cell markup containing the same anchor twice
produces two identical `(href, text)` entries — `handle_endtag` appends
every `finditer` match unconditionally, so there is no per-cell
deduplication. -/
theorem c9_dedup_counterexample :
    extractLinks "<a href=\"/x\">t</a><a href=\"/x\">t</a>".data =
      [Link.mk "/x".data "t".data, Link.mk "/x".data "t".data] ∧
    ¬ (extractLinks "<a href=\"/x\">t</a><a href=\"/x\">t</a>".data).Nodup
    := by
  constructor
  · decide
  · decide

/-- `lowCh` maps into lowercase letters or fixes its argument: a value
outside the lowercase range is only reached from itself. -/
theorem lowCh_eq_of_not_lower {c d : Char}
    (hd : ¬ (97 ≤ d.toNat ∧ d.toNat ≤ 122)) (h : lowCh c = d) : c = d := by
  unfold lowCh at h
  split at h
  · exfalso
    apply hd
    have hv : (Char.ofNat (c.toNat + 32)).toNat = c.toNat + 32 := by
      unfold Char.ofNat
      rename_i hc
      rw [dif_pos (Or.inl (by omega))]
      rfl
    rw [← h, hv]
    rename_i hc
    omega
  · exact h

/-- A literal match on `u ++ v` that fits inside `u` restricts to `u`. -/
theorem stripLitCI_isSome_of_append {lit : Str} :
    ∀ {u v : Str}, (stripLitCI lit (u ++ v)).isSome →
      lit.length ≤ u.length → (stripLitCI lit u).isSome := by
  induction lit with
  | nil => intro u v _ _; simp [stripLitCI]
  | cons c cs ih =>
    intro u v h hlen
    cases u with
    | nil => simp at hlen
    | cons x xs =>
      rw [List.cons_append] at h
      simp only [stripLitCI] at h ⊢
      split at h
      · rename_i hc
        rw [if_pos hc]
        have h2 : (stripLitCI cs (xs ++ v)).isSome := by
          cases hm : stripLitCI cs (xs ++ v) with
          | none => rw [hm] at h; simp at h
          | some pr => simp
        have h3 := ih h2 (by simpa using hlen)
        cases hm : stripLitCI cs xs with
        | none => rw [hm] at h3; simp at h3
        | some pr => simp
      · rename_i hc
        rw [if_neg hc]
        exact h

/-- If `pat` is not a case-insensitive substring of `u`, the literal match
fails at every position of `u`. -/
theorem stripLitCI_none_of_no_substr {pat : Str} :
    ∀ {u : Str}, hasSubstrCI pat u = false →
      ∀ j, (stripLitCI pat (u.drop j)).isSome = false := by
  intro u
  induction u with
  | nil =>
    intro h j
    simp only [List.drop_nil]
    simpa [hasSubstrCI] using h
  | cons c rest ih =>
    intro h j
    simp only [hasSubstrCI, Bool.or_eq_false_iff] at h
    obtain ⟨h1, h2⟩ := h
    cases j with
    | zero => simpa using h1
    | succ k => simpa using ih h2 k

/-- The literal matcher strips an exact copy of its pattern. -/
theorem stripLitCI_self_append (lit : Str) :
    ∀ v, stripLitCI lit (lit ++ v) = some (lit, v) := by
  induction lit with
  | nil => intro v; rfl
  | cons c cs ih =>
    intro v
    rw [List.cons_append]
    simp only [stripLitCI, if_pos rfl, ih v, Option.map_some']
    simp

/-- A literal match against a concatenation aligned with a split of the
pattern factors into the two halves. -/
theorem stripLitCI_append_split (p q : Str) :
    ∀ u v, u.length = p.length →
      stripLitCI (p ++ q) (u ++ v) =
        (stripLitCI p u).bind fun pr =>
          (stripLitCI q v).map fun pr2 => (pr.1 ++ pr2.1, pr2.2) := by
  induction p with
  | nil =>
    intro u v h
    have hu : u = [] := List.eq_nil_of_length_eq_zero h
    subst hu
    simp only [List.nil_append, stripLitCI, Option.some_bind]
    cases hq : stripLitCI q v with
    | none => rfl
    | some pr => simp
  | cons c cs ih =>
    intro u v h
    cases u with
    | nil => simp at h
    | cons x xs =>
      simp only [List.length_cons] at h
      rw [List.cons_append, List.cons_append]
      simp only [stripLitCI]
      split
      · rw [ih xs v (by omega)]
        cases ho : stripLitCI cs xs with
        | none => rfl
        | some pr =>
          simp only [Option.map_some', Option.some_bind]
          cases hq : stripLitCI q v with
          | none => rfl
          | some pr2 => simp
      · rfl

/-- Every character of a matched pattern has a case-insensitive image in
the matched stretch. -/
theorem stripLitCI_contains (lit : Str) :
    ∀ u, (stripLitCI lit u).isSome → ∀ c ∈ lit, ∃ x ∈ u, lowCh x = lowCh c := by
  induction lit with
  | nil => intro u _ c hc; exact absurd hc (List.not_mem_nil c)
  | cons d ds ih =>
    intro u h c hc
    cases u with
    | nil => simp [stripLitCI] at h
    | cons x xs =>
      simp only [stripLitCI] at h
      split at h
      · rename_i hx
        have h2 : (stripLitCI ds xs).isSome := by
          cases hm : stripLitCI ds xs with
          | none => rw [hm] at h; simp at h
          | some pr => simp
        rcases List.mem_cons.mp hc with h3 | h3
        · exact ⟨x, List.mem_cons_self x xs, h3 ▸ hx⟩
        · obtain ⟨y, hy1, hy2⟩ := ih xs h2 c h3
          exact ⟨y, List.mem_cons_of_mem x hy1, hy2⟩
      · simp at h

/-- `splitAtChar` cuts exactly at the first marked occurrence. -/
theorem splitAtChar_exact (c : Char) :
    ∀ u w, c ∉ u → splitAtChar c (u ++ c :: w) = some (u, w) := by
  intro u
  induction u with
  | nil => intro w _; simp [splitAtChar]
  | cons x xs ih =>
    intro w h
    rw [List.cons_append]
    simp only [splitAtChar]
    rw [if_neg (by intro he; exact h (he ▸ List.mem_cons_self x xs))]
    rw [ih w (fun hm => h (List.mem_cons_of_mem x hm))]
    rfl

/-- The first `>` of a concatenation lies past a `>`-free prefix. -/
theorem gtIdx_append_no_gt :
    ∀ u v, gtCh ∉ u → gtIdx (u ++ v) = u.length + gtIdx v := by
  intro u
  induction u with
  | nil => intro v _; simp [gtIdx]
  | cons x xs ih =>
    intro v h
    rw [List.cons_append]
    simp only [gtIdx]
    rw [if_neg (by intro he; exact h (he ▸ List.mem_cons_self x xs))]
    rw [ih v (fun hm => h (List.mem_cons_of_mem x hm))]
    simp [List.length_cons]
    omega

/-- `findLitCI` lands on an occurrence preceded only by non-matches. -/
theorem findLitCI_at (lit : Str) :
    ∀ (T v : Str), v ≠ [] →
      (∀ j, j < T.length → (stripLitCI lit ((T ++ v).drop j)).isSome = false) →
      (stripLitCI lit v).isSome →
      findLitCI lit (T ++ v) = some (T, v) := by
  intro T
  induction T with
  | nil =>
    intro v hv hnone hsome
    cases v with
    | nil => exact absurd rfl hv
    | cons c rest =>
      simp only [List.nil_append, findLitCI]
      rw [if_pos hsome]
  | cons c T2 ih =>
    intro v hv hnone hsome
    rw [List.cons_append]
    simp only [findLitCI]
    rw [if_neg (by
      have := hnone 0 (by simp)
      simp only [List.drop_zero, List.cons_append] at this
      simp [this])]
    rw [ih v hv (fun j hj => by
      have := hnone (j + 1) (by simp; omega)
      simpa using this) hsome]
    rfl

/-- The greedy descent settles on the single surviving offset. -/
theorem tryHrefDesc_unique (r1 : Str) (v : Str × Str × Str)
    (hv : hrefAt r1 1 = some v) :
    ∀ n, 1 ≤ n → (∀ o, 1 < o → o ≤ n → hrefAt r1 o = none) →
      tryHrefDesc r1 n = some v := by
  intro n
  induction n with
  | zero => intro h; omega
  | succ m ih =>
    intro _ hnone
    by_cases hm : m = 0
    · subst hm
      simp only [tryHrefDesc]
      rw [hv]
    · simp only [tryHrefDesc]
      rw [hnone (m + 1) (by omega) (le_refl _)]
      exact ih (by omega) (fun o ho1 ho2 => hnone o ho1 (by omega))

/-- A literal match dies on a mismatching head character. -/
theorem strip_fail_head (c : Char) (cs : Str) (x : Char) (w : Str)
    (h : ¬ lowCh x = lowCh c) : stripLitCI (c :: cs) (x :: w) = none := by
  simp only [stripLitCI]
  rw [if_neg h]

/-- The anchor matcher needs its opening literal. -/
theorem tryAnchor_of_strip_none {s : Str}
    (h : stripLitCI "<a".data s = none) : tryAnchor s = none := by
  unfold tryAnchor
  rw [h]
  rfl

/-- `hrefAt` needs its `href` literal at the probed offset. -/
theorem hrefAt_of_strip_none {r1 : Str} {o : Nat}
    (h : stripLitCI "href=\"".data (r1.drop o) = none) : hrefAt r1 o = none := by
  unfold hrefAt
  rw [h]
  rfl

/-- The close pattern cannot straddle one character into a `<`. -/
theorem straddle_close1 (a : Char) (w : Str) :
    stripLitCI "</a>".data (a :: '<' :: w) = none := by
  simp only [stripLitCI]
  rw [if_neg (show ¬ lowCh '<' = lowCh '/' from by decide)]
  split <;> rfl

/-- The close pattern cannot straddle two characters into a `<`. -/
theorem straddle_close2 (a b : Char) (w : Str) :
    stripLitCI "</a>".data (a :: b :: '<' :: w) = none := by
  simp only [stripLitCI]
  rw [if_neg (show ¬ lowCh '<' = lowCh 'a' from by decide)]
  split <;> (try rfl)
  split <;> rfl

/-- The close pattern cannot straddle three characters into a `<`. -/
theorem straddle_close3 (a b c : Char) (w : Str) :
    stripLitCI "</a>".data (a :: b :: c :: '<' :: w) = none := by
  simp only [stripLitCI]
  rw [if_neg (show ¬ lowCh '<' = lowCh '>' from by decide)]
  split <;> (try rfl)
  split <;> (try rfl)
  split <;> rfl

/-- The close pattern matches nowhere inside a text group free of `</a>`
(case-insensitively) when a `<` follows. -/
theorem strip_close_none_in_T (T : Str)
    (hT : hasSubstrCI "</a>".data T = false) (v : Str) :
    ∀ j, j < T.length →
      (stripLitCI "</a>".data ((T ++ '<' :: v).drop j)).isSome = false := by
  intro j hj
  rw [List.drop_append_of_le_length (by omega)]
  by_cases hk : 4 ≤ (T.drop j).length
  · cases hs : stripLitCI "</a>".data (T.drop j ++ '<' :: v) with
    | none => rfl
    | some pr =>
      exfalso
      have h1 : (stripLitCI "</a>".data (T.drop j)).isSome :=
        stripLitCI_isSome_of_append (by rw [hs]; rfl) (by simpa using hk)
      have h2 := stripLitCI_none_of_no_substr hT j
      rw [h2] at h1
      exact Bool.noConfusion h1
  · have hk1 : 1 ≤ (T.drop j).length := by
      rw [List.length_drop]; omega
    rcases hu : T.drop j with _ | ⟨a, _ | ⟨b, _ | ⟨c, rest⟩⟩⟩
    · rw [hu] at hk1; simp at hk1
    · rw [show ([a] : Str) ++ '<' :: v = a :: '<' :: v from rfl]
      rw [straddle_close1]; rfl
    · rw [show ([a, b] : Str) ++ '<' :: v = a :: b :: '<' :: v from rfl]
      rw [straddle_close2]; rfl
    · have hrest : rest = [] := by
        rw [hu] at hk
        simp only [List.length_cons, not_le] at hk
        exact List.eq_nil_of_length_eq_zero (by omega)
      subst hrest
      rw [show ([a, b, c] : Str) ++ '<' :: v = a :: b :: c :: '<' :: v from rfl]
      rw [straddle_close3]
      rfl

/-- The `href="` pattern matches nowhere inside an href group free of
quotes and of the substring `href=`, up to its closing quote. -/
theorem strip_hrefq_none_in_H (H : Str) (hq : dqCh ∉ H)
    (hh : hasSubstrCI "href=".data H = false) (w : Str) :
    ∀ j, j < H.length →
      stripLitCI "href=\"".data (H.drop j ++ dqCh :: w) = none := by
  intro j hj
  by_cases hk : 6 ≤ (H.drop j).length
  · cases hs : stripLitCI "href=\"".data (H.drop j ++ dqCh :: w) with
    | none => rfl
    | some pr =>
      exfalso
      have h1 : (stripLitCI "href=\"".data (H.drop j)).isSome :=
        stripLitCI_isSome_of_append (by rw [hs]; rfl) (by simpa using hk)
      obtain ⟨x, hx1, hx2⟩ := stripLitCI_contains _ _ h1 dqCh (by decide)
      have hx3 : lowCh x = dqCh := by rw [hx2]; decide
      have hx4 : x = dqCh := lowCh_eq_of_not_lower (by decide) hx3
      exact hq (List.mem_of_mem_drop (hx4 ▸ hx1))
  · have hk1 : 1 ≤ (H.drop j).length := by
      rw [List.length_drop]; omega
    rcases hu : H.drop j with _ | ⟨a, _ | ⟨b, _ | ⟨c, _ | ⟨d, _ | ⟨e, rest⟩⟩⟩⟩⟩
    · rw [hu] at hk1; simp at hk1
    · rw [show "href=\"".data = ['h'] ++ ['r', 'e', 'f', '=', dqCh] from by decide]
      rw [stripLitCI_append_split ['h'] _ [a] _ (by simp)]
      rw [strip_fail_head 'r' _ dqCh _ (by decide)]
      cases stripLitCI ['h'] [a] <;> rfl
    · rw [show "href=\"".data = ['h', 'r'] ++ ['e', 'f', '=', dqCh] from by decide]
      rw [stripLitCI_append_split ['h', 'r'] _ [a, b] _ (by simp)]
      rw [strip_fail_head 'e' _ dqCh _ (by decide)]
      cases stripLitCI ['h', 'r'] [a, b] <;> rfl
    · rw [show "href=\"".data = ['h', 'r', 'e'] ++ ['f', '=', dqCh] from by decide]
      rw [stripLitCI_append_split ['h', 'r', 'e'] _ [a, b, c] _ (by simp)]
      rw [strip_fail_head 'f' _ dqCh _ (by decide)]
      cases stripLitCI ['h', 'r', 'e'] [a, b, c] <;> rfl
    · rw [show "href=\"".data = ['h', 'r', 'e', 'f'] ++ ['=', dqCh] from by decide]
      rw [stripLitCI_append_split ['h', 'r', 'e', 'f'] _ [a, b, c, d] _ (by simp)]
      rw [strip_fail_head '=' _ dqCh _ (by decide)]
      cases stripLitCI ['h', 'r', 'e', 'f'] [a, b, c, d] <;> rfl
    · have hrest : rest = [] := by
        rw [hu] at hk
        simp only [List.length_cons, not_le] at hk
        exact List.eq_nil_of_length_eq_zero (by omega)
      subst hrest
      rw [show "href=\"".data = "href=".data ++ [dqCh] from by decide]
      rw [stripLitCI_append_split "href=".data _ [a, b, c, d, e] _ (by rfl)]
      have h5 := stripLitCI_none_of_no_substr hh j
      rw [hu] at h5
      cases hm : stripLitCI "href=".data [a, b, c, d, e] with
      | none => rfl
      | some pr => rw [hm] at h5; exact Bool.noConfusion h5

/-- The canonical anchor markup `<a href="H">T</a>` with the groups as
parameters. -/
def renderAnchor (H T : Str) : Str :=
  "<a href=\"".data ++ H ++ dqCh :: gtCh :: (T ++ "</a>".data)

/-- Every case-insensitive occurrence of `<a` in `s` is immediately
followed by a `>`: such bare anchors carry no href and never match. -/
abbrev bareAnchorsClosed (s : Str) : Prop :=
  ∀ j ∈ List.range s.length, (stripLitCI "<a".data (s.drop j)).isSome = true →
    (s.drop (j + 2)).take 1 = [gtCh]

/-- The remainder returned by the literal matcher is the input minus the
pattern length. -/
theorem stripLitCI_drop (lit : Str) :
    ∀ s pr, stripLitCI lit s = some pr → pr.2 = s.drop lit.length := by
  induction lit with
  | nil =>
    intro s pr h
    simp only [stripLitCI, Option.some.injEq] at h
    rw [← h]
    rfl
  | cons c cs ih =>
    intro s pr h
    cases s with
    | nil => simp [stripLitCI] at h
    | cons x xs =>
      simp only [stripLitCI] at h
      split at h
      · cases hm : stripLitCI cs xs with
        | none => rw [hm] at h; simp at h
        | some pr2 =>
          rw [hm] at h
          simp only [Option.map_some', Option.some.injEq] at h
          rw [← h]
          simpa using ih xs pr2 hm
      · simp at h

/-- An anchor open tag immediately closed by `>` never completes a match:
the greedy prefix bound is the immediate `>`, where `href="` fails. -/
theorem tryAnchor_none_of_bare {s : Str} {p r : Str}
    (h : stripLitCI "<a".data s = some (p, gtCh :: r)) : tryAnchor s = none := by
  unfold tryAnchor
  rw [h]
  simp only [Option.some_bind]
  split
  · rw [show gtIdx (gtCh :: r) = 0 from by simp [gtIdx]]
    show hrefAt (gtCh :: r) 0 = none
    apply hrefAt_of_strip_none
    rw [show ((gtCh :: r : Str)).drop 0 = gtCh :: r from rfl]
    rw [show "href=\"".data = 'h' :: ['r', 'e', 'f', '=', dqCh] from by decide]
    exact strip_fail_head 'h' _ gtCh _ (by decide)
  · rfl

/-- No anchor match starts inside a stretch whose `<a` occurrences are
all bare, when the following text starts with a `<`. -/
theorem tryAnchor_none_in_pre2 (pre : Str) (hpre : bareAnchorsClosed pre) (v : Str) :
    ∀ j, j < pre.length → tryAnchor ((pre ++ '<' :: v).drop j) = none := by
  intro j hj
  rw [List.drop_append_of_le_length (by omega)]
  cases hs : stripLitCI "<a".data (pre.drop j ++ '<' :: v) with
  | none => exact tryAnchor_of_strip_none hs
  | some pr =>
    by_cases hk : 2 ≤ (pre.drop j).length
    · have h1 : (stripLitCI "<a".data (pre.drop j)).isSome :=
        stripLitCI_isSome_of_append (by rw [hs]; rfl) (by simpa using hk)
      have h2 := hpre j (List.mem_range.mpr hj) h1
      have h3 : pr.2 = (pre.drop j ++ '<' :: v).drop 2 :=
        stripLitCI_drop "<a".data _ pr hs
      have h4 : (pre.drop j ++ '<' :: v).drop 2 = pre.drop (j + 2) ++ '<' :: v := by
        rw [List.drop_append_of_le_length (by omega)]
        rw [List.drop_drop, Nat.add_comm]
      obtain ⟨r2, hr2⟩ : ∃ r2, pre.drop (j + 2) = gtCh :: r2 := by
        cases hd : pre.drop (j + 2) with
        | nil => rw [hd] at h2; simp at h2
        | cons c cr =>
          rw [hd] at h2
          simp only [List.take_succ_cons, List.take_zero, List.cons.injEq, and_true] at h2
          exact ⟨cr, by rw [h2]⟩
      have h5 : pr.2 = gtCh :: (r2 ++ '<' :: v) := by
        rw [h3, h4, hr2]
        rfl
      exact tryAnchor_none_of_bare
        (show stripLitCI "<a".data (pre.drop j ++ '<' :: v)
            = some (pr.1, gtCh :: (r2 ++ '<' :: v)) from by rw [hs, ← h5])
    · exfalso
      have hk1 : (pre.drop j).length = 1 := by
        rw [List.length_drop]
        rw [List.length_drop] at hk
        omega
      rcases hu : pre.drop j with _ | ⟨a, rest⟩
      · rw [hu] at hk1; simp at hk1
      · have hr : rest = [] := by
          rw [hu] at hk1
          simpa using hk1
        subst hr
        rw [hu] at hs
        rw [show "<a".data = ['<'] ++ ['a'] from by decide] at hs
        rw [stripLitCI_append_split ['<'] ['a'] [a] ('<' :: v) (by simp)] at hs
        rw [strip_fail_head 'a' [] '<' v (by decide)] at hs
        cases hz : stripLitCI ['<'] [a] with
        | none => rw [hz] at hs; exact Option.noConfusion hs
        | some q => rw [hz] at hs; simp at hs

/-- No anchor match starts anywhere in a trailing stretch whose `<a`
occurrences are all bare. -/
theorem tryAnchor_none_in_tail (s : Str) (hcl : bareAnchorsClosed s) :
    ∀ j, j < s.length → tryAnchor (s.drop j) = none := by
  intro j hj
  cases hm : stripLitCI "<a".data (s.drop j) with
  | none => exact tryAnchor_of_strip_none hm
  | some pr =>
    have h1 : (stripLitCI "<a".data (s.drop j)).isSome := by rw [hm]; rfl
    have h2 := hcl j (List.mem_range.mpr hj) h1
    have h3 : pr.2 = s.drop (j + 2) := by
      have h0 : pr.2 = (s.drop j).drop 2 := stripLitCI_drop "<a".data _ pr hm
      rw [h0, List.drop_drop, Nat.add_comm]
    obtain ⟨r2, hr2⟩ : ∃ r2, pr.2 = gtCh :: r2 := by
      rw [h3]
      cases hd : s.drop (j + 2) with
      | nil => rw [hd] at h2; simp at h2
      | cons c cr =>
        rw [hd] at h2
        simp only [List.take_succ_cons, List.take_zero, List.cons.injEq, and_true] at h2
        exact ⟨cr, by rw [h2]⟩
    exact tryAnchor_none_of_bare
      (show stripLitCI "<a".data (s.drop j) = some (pr.1, gtCh :: r2) from by
        rw [hm, ← hr2])

/-- Appending to a rendered anchor re-associates to the head-explicit
form. -/
theorem renderAnchor_append (H T R : Str) :
    renderAnchor H T ++ R =
      '<' :: 'a' :: ' ' :: 'h' :: 'r' :: 'e' :: 'f' :: '=' :: dqCh ::
        (H ++ dqCh :: gtCh :: (T ++ '<' :: '/' :: 'a' :: '>' :: R)) := by
  show ("<a href=\"".data ++ H ++ dqCh :: gtCh :: (T ++ "</a>".data)) ++ R = _
  rw [show "<a href=\"".data
      = ['<', 'a', ' ', 'h', 'r', 'e', 'f', '=', dqCh] from by decide]
  simp [List.append_assoc]

/-- The first `>` of the canonical anchor remainder sits right after the
closing quote of a `>`-free href group. -/
theorem gtIdx_r1 (H X : Str) (hg : gtCh ∉ H) :
    gtIdx (' ' :: 'h' :: 'r' :: 'e' :: 'f' :: '=' :: dqCh ::
      (H ++ dqCh :: gtCh :: X)) = H.length + 8 := by
  have e1 : (' ' :: 'h' :: 'r' :: 'e' :: 'f' :: '=' :: dqCh ::
      (H ++ dqCh :: gtCh :: X) : Str)
      = ([' ', 'h', 'r', 'e', 'f', '=', dqCh] ++ H) ++ (dqCh :: gtCh :: X) := by
    rw [List.append_assoc]
    rfl
  rw [e1, gtIdx_append_no_gt _ _ (by
    intro hm
    rcases List.mem_append.mp hm with h | h
    · revert h; decide
    · exact hg h)]
  simp only [gtIdx]
  rw [if_neg (show ¬ dqCh = gtCh from by decide)]
  simp only [if_true, List.length_append, List.length_cons, List.length_nil]
  omega

/-- At offset 1 (right after the space) the href pattern matches the
canonical anchor remainder with exactly the recorded groups. -/
theorem hrefAt_canonical_hit (H T s2 : Str) (hne : H ≠ []) (hq : dqCh ∉ H)
    (hT : hasSubstrCI "</a>".data T = false) :
    hrefAt (' ' :: 'h' :: 'r' :: 'e' :: 'f' :: '=' :: dqCh ::
      (H ++ dqCh :: gtCh :: (T ++ '<' :: '/' :: 'a' :: '>' :: s2))) 1
      = some (H, T, s2) := by
  unfold hrefAt
  rw [show ((' ' :: 'h' :: 'r' :: 'e' :: 'f' :: '=' :: dqCh ::
      (H ++ dqCh :: gtCh :: (T ++ '<' :: '/' :: 'a' :: '>' :: s2)) : Str)).drop 1
      = "href=\"".data ++ (H ++ dqCh :: gtCh :: (T ++ '<' :: '/' :: 'a' :: '>' :: s2))
      from by
        rw [show "href=\"".data = ['h', 'r', 'e', 'f', '=', dqCh] from by decide]
        rfl]
  rw [stripLitCI_self_append]
  simp only [Option.some_bind]
  rw [splitAtChar_exact dqCh H _ hq]
  simp only [Option.some_bind]
  rw [if_neg hne]
  rw [show splitAtChar gtCh (gtCh :: (T ++ '<' :: '/' :: 'a' :: '>' :: s2))
      = some ([], T ++ '<' :: '/' :: 'a' :: '>' :: s2) from by simp [splitAtChar]]
  simp only [Option.some_bind]
  rw [show ('<' :: '/' :: 'a' :: '>' :: s2 : Str) = "</a>".data ++ s2 from rfl]
  rw [findLitCI_at "</a>".data T ("</a>".data ++ s2)
    (List.cons_ne_nil '<' ('/' :: 'a' :: '>' :: s2))
    (fun j hj => strip_close_none_in_T T hT ('/' :: 'a' :: '>' :: s2) j hj)
    (by rw [stripLitCI_self_append]; rfl)]
  simp only [Option.some_bind]
  rw [stripLitCI_self_append]
  rfl

/-- At every other offset probed by the greedy descent the href pattern
fails on the canonical anchor remainder. -/
theorem hrefAt_canonical_miss (H T s2 : Str) (hq : dqCh ∉ H)
    (hh : hasSubstrCI "href=".data H = false) :
    ∀ o, 1 < o → o ≤ H.length + 8 →
      hrefAt (' ' :: 'h' :: 'r' :: 'e' :: 'f' :: '=' :: dqCh ::
        (H ++ dqCh :: gtCh :: (T ++ '<' :: '/' :: 'a' :: '>' :: s2))) o = none := by
  intro o ho1 ho2
  apply hrefAt_of_strip_none
  by_cases h6 : o ≤ 6
  · interval_cases o
    · rw [show ((' ' :: 'h' :: 'r' :: 'e' :: 'f' :: '=' :: dqCh ::
          (H ++ dqCh :: gtCh :: (T ++ '<' :: '/' :: 'a' :: '>' :: s2)) : Str)).drop 2
          = 'r' :: 'e' :: 'f' :: '=' :: dqCh ::
            (H ++ dqCh :: gtCh :: (T ++ '<' :: '/' :: 'a' :: '>' :: s2)) from rfl]
      rw [show "href=\"".data = 'h' :: ['r', 'e', 'f', '=', dqCh] from by decide]
      exact strip_fail_head 'h' _ 'r' _ (by decide)
    · rw [show ((' ' :: 'h' :: 'r' :: 'e' :: 'f' :: '=' :: dqCh ::
          (H ++ dqCh :: gtCh :: (T ++ '<' :: '/' :: 'a' :: '>' :: s2)) : Str)).drop 3
          = 'e' :: 'f' :: '=' :: dqCh ::
            (H ++ dqCh :: gtCh :: (T ++ '<' :: '/' :: 'a' :: '>' :: s2)) from rfl]
      rw [show "href=\"".data = 'h' :: ['r', 'e', 'f', '=', dqCh] from by decide]
      exact strip_fail_head 'h' _ 'e' _ (by decide)
    · rw [show ((' ' :: 'h' :: 'r' :: 'e' :: 'f' :: '=' :: dqCh ::
          (H ++ dqCh :: gtCh :: (T ++ '<' :: '/' :: 'a' :: '>' :: s2)) : Str)).drop 4
          = 'f' :: '=' :: dqCh ::
            (H ++ dqCh :: gtCh :: (T ++ '<' :: '/' :: 'a' :: '>' :: s2)) from rfl]
      rw [show "href=\"".data = 'h' :: ['r', 'e', 'f', '=', dqCh] from by decide]
      exact strip_fail_head 'h' _ 'f' _ (by decide)
    · rw [show ((' ' :: 'h' :: 'r' :: 'e' :: 'f' :: '=' :: dqCh ::
          (H ++ dqCh :: gtCh :: (T ++ '<' :: '/' :: 'a' :: '>' :: s2)) : Str)).drop 5
          = '=' :: dqCh ::
            (H ++ dqCh :: gtCh :: (T ++ '<' :: '/' :: 'a' :: '>' :: s2)) from rfl]
      rw [show "href=\"".data = 'h' :: ['r', 'e', 'f', '=', dqCh] from by decide]
      exact strip_fail_head 'h' _ '=' _ (by decide)
    · rw [show ((' ' :: 'h' :: 'r' :: 'e' :: 'f' :: '=' :: dqCh ::
          (H ++ dqCh :: gtCh :: (T ++ '<' :: '/' :: 'a' :: '>' :: s2)) : Str)).drop 6
          = dqCh ::
            (H ++ dqCh :: gtCh :: (T ++ '<' :: '/' :: 'a' :: '>' :: s2)) from rfl]
      rw [show "href=\"".data = 'h' :: ['r', 'e', 'f', '=', dqCh] from by decide]
      exact strip_fail_head 'h' _ dqCh _ (by decide)
  · have hd7 : ∀ (X : Str) (n : Nat),
        ((' ' :: 'h' :: 'r' :: 'e' :: 'f' :: '=' :: dqCh :: X : Str)).drop (n + 7)
          = X.drop n :=
      fun X n => rfl
    rw [show o = (o - 7) + 7 from by omega, hd7]
    by_cases hj : o - 7 < H.length
    · rw [List.drop_append_of_le_length (by omega)]
      exact strip_hrefq_none_in_H H hq hh _ (o - 7) hj
    · rcases (show o - 7 = H.length ∨ o - 7 = H.length + 1 from by omega) with h | h
      · rw [h, List.drop_left]
        rw [show "href=\"".data = 'h' :: ['r', 'e', 'f', '=', dqCh] from by decide]
        exact strip_fail_head 'h' _ dqCh _ (by decide)
      · rw [h, List.drop_append 1]
        rw [show ((dqCh :: gtCh :: (T ++ '<' :: '/' :: 'a' :: '>' :: s2) : Str)).drop 1
            = gtCh :: (T ++ '<' :: '/' :: 'a' :: '>' :: s2) from rfl]
        rw [show "href=\"".data = 'h' :: ['r', 'e', 'f', '=', dqCh] from by decide]
        exact strip_fail_head 'h' _ gtCh _ (by decide)

/-- The anchor pattern matches a canonical anchor (href group nonempty,
free of quotes, of `>` and of `href=`; text group free of `</a>`) exactly
at its span, producing its two groups. -/
theorem tryAnchor_canonical (H T s2 : Str) (hne : H ≠ []) (hq : dqCh ∉ H)
    (hg : gtCh ∉ H) (hh : hasSubstrCI "href=".data H = false)
    (hT : hasSubstrCI "</a>".data T = false) :
    tryAnchor ('<' :: 'a' :: ' ' :: 'h' :: 'r' :: 'e' :: 'f' :: '=' :: dqCh ::
        (H ++ dqCh :: gtCh :: (T ++ '<' :: '/' :: 'a' :: '>' :: s2)))
      = some (H, T, s2) := by
  unfold tryAnchor
  rw [show stripLitCI "<a".data ('<' :: 'a' :: ' ' :: 'h' :: 'r' :: 'e' :: 'f' ::
      '=' :: dqCh :: (H ++ dqCh :: gtCh :: (T ++ '<' :: '/' :: 'a' :: '>' :: s2)))
      = some (['<', 'a'], ' ' :: 'h' :: 'r' :: 'e' :: 'f' :: '=' :: dqCh ::
        (H ++ dqCh :: gtCh :: (T ++ '<' :: '/' :: 'a' :: '>' :: s2))) from by
    rw [show "<a".data = ['<', 'a'] from by decide]
    exact stripLitCI_self_append ['<', 'a'] _]
  simp only [Option.some_bind]
  split
  · rw [gtIdx_r1 H _ hg]
    exact tryHrefDesc_unique _ (H, T, s2)
      (hrefAt_canonical_hit H T s2 hne hq hT) (H.length + 8) (by omega)
      (hrefAt_canonical_miss H T s2 hq hh)
  · rename_i hcond
    exact absurd (by decide) hcond

/-- One segment of a cell markup: a stretch containing no anchor match,
followed by one matched anchor span with its two groups. -/
structure ASeg where
  pre : Str
  anch : Str
  href : Str
  text : Str
deriving DecidableEq, Repr

/-- The markup assembled from segments and a final matchless stretch. -/
def renderSegs : List ASeg → Str → Str
  | [], tail => tail
  | sg :: rest, tail => sg.pre ++ (sg.anch ++ renderSegs rest tail)

/-- The segment decomposition is faithful to the anchor scan: no match
starts inside any `pre` stretch or the tail, and at each anchor span the
pattern matches exactly that span with the recorded groups. -/
def segsOK : List ASeg → Str → Prop
  | [], tail => ∀ j, j < tail.length → tryAnchor (tail.drop j) = none
  | sg :: rest, tail =>
      (∀ j, j < sg.pre.length →
        tryAnchor ((sg.pre ++ (sg.anch ++ renderSegs rest tail)).drop j) =
          none) ∧
      tryAnchor (sg.anch ++ renderSegs rest tail) =
        some (sg.href, sg.text, renderSegs rest tail) ∧
      segsOK rest tail

theorem anchorStep_none {s : Str} (h : tryAnchor s = none) :
    anchorStep s = none := by
  simp [anchorStep, h]

theorem anchorStep_some {s h t r : Str}
    (hm : tryAnchor s = some (h, t, r)) :
    anchorStep s = some (mkLink h t, r) := by
  simp [anchorStep, hm]

/-- Against a scanner-faithful segment decomposition, the `finditer` loop
returns exactly one link per anchor span, in order. -/
theorem extractLinks_segs (segs : List ASeg) (tail : Str)
    (hok : segsOK segs tail) :
    extractLinks (renderSegs segs tail) =
      segs.map (fun sg => mkLink sg.href sg.text) := by
  induction segs with
  | nil =>
    unfold renderSegs extractLinks
    rw [scanAll_skip anchorStep tail.length _
      (fun j hj => anchorStep_none (hok j hj))]
    rw [List.drop_length]
    exact scanAll_nil anchorStep
  | cons sg rest ih =>
    obtain ⟨hpre, hm, hrest⟩ := hok
    unfold renderSegs extractLinks
    rw [scanAll_skip anchorStep sg.pre.length _
      (fun j hj => anchorStep_none (hpre j hj))]
    rw [List.drop_left]
    rw [scanAll_match anchorStep anchorStep_shrink (anchorStep_some hm)]
    rw [show scanAll anchorStep (renderSegs rest tail) =
        extractLinks (renderSegs rest tail) from rfl]
    rw [ih hrest]
    rfl

/-- Syntactically clean segments satisfy the scanner-faithful
decomposition: bare anchors never match, and each canonical anchor matches
exactly at its span. -/
theorem segsOK_of_clean (segs : List ASeg) (tail : Str)
    (hclean : ∀ sg ∈ segs,
      bareAnchorsClosed sg.pre ∧
      sg.anch = renderAnchor sg.href sg.text ∧
      sg.href ≠ [] ∧ dqCh ∉ sg.href ∧ gtCh ∉ sg.href ∧
      hasSubstrCI "href=".data sg.href = false ∧
      hasSubstrCI "</a>".data sg.text = false)
    (htail : bareAnchorsClosed tail) :
    segsOK segs tail := by
  induction segs with
  | nil =>
    show ∀ j, j < tail.length → tryAnchor (tail.drop j) = none
    exact tryAnchor_none_in_tail tail htail
  | cons sg rest ih =>
    obtain ⟨h1, h2, h3, h4, h5, h6, h7⟩ := hclean sg (List.mem_cons_self _ _)
    refine ⟨?_, ?_, ih (fun s hs => hclean s (List.mem_cons_of_mem _ hs))⟩
    · intro j hj
      rw [h2, renderAnchor_append]
      exact tryAnchor_none_in_pre2 sg.pre h1 _ j hj
    · rw [h2, renderAnchor_append]
      exact tryAnchor_canonical sg.href sg.text (renderSegs rest tail) h3 h4 h5 h6 h7

/-- C9 (amended): for cell markup assembled from stretches whose `<a`
occurrences are all bare (href-less `<a>`, which the pattern never
matches) and canonical href-carrying anchors `<a href="H">T</a>` (href
group nonempty, free of quotes, of `>` and of `href=`; text group free of
`</a>`), the links sequence contains exactly the href-carrying anchors, in
document order, each contributing its href group and its text group
unescaped, whitespace-collapsed and stripped (`mkLink`); duplicate
`(href, text)` pairs are retained, and anchors without an href are
ignored. -/
theorem c9_links_extraction (segs : List ASeg) (tail : Str)
    (hclean : ∀ sg ∈ segs,
      bareAnchorsClosed sg.pre ∧
      sg.anch = renderAnchor sg.href sg.text ∧
      sg.href ≠ [] ∧ dqCh ∉ sg.href ∧ gtCh ∉ sg.href ∧
      hasSubstrCI "href=".data sg.href = false ∧
      hasSubstrCI "</a>".data sg.text = false)
    (htail : bareAnchorsClosed tail) :
    extractLinks (renderSegs segs tail) =
      segs.map (fun sg => mkLink sg.href sg.text) :=
  extractLinks_segs segs tail (segsOK_of_clean segs tail hclean htail)

/-- C9 witness: markup whose stretches contain href-less anchors
(`<a>no href</a>` before the first anchor, `<a>z</a>` in the tail, both
ignored) around the same href-carrying anchor twice — extraction returns
the two identical links in document order. -/
theorem c9_links_extraction_witness :
    extractLinks (renderSegs
      [ASeg.mk "x<a>no href</a>".data (renderAnchor "/x".data "t".data)
          "/x".data "t".data,
        ASeg.mk [] (renderAnchor "/x".data "t".data) "/x".data "t".data]
      "y<a>z</a>".data)
      = [mkLink "/x".data "t".data, mkLink "/x".data "t".data] :=
  c9_links_extraction _ _ (by decide) (by decide)

end SRHS
